import Mathlib

/-!
# ErlangMergeOperator::Merge (c_src/erlang_merge.cc)

A shallow embedding of the merge callback of erlang-rocksdb and theorems about it.

The C++ function reads its two operands as Erlang terms through the `erl_nif` API,
dispatches on a tagged tuple, and writes the merged value into a caller-supplied
`std::string`.  The embedding keeps the control flow of the source:

* Erlang terms are the inductive type `Term`; lists are chains of `cons` cells ending
  in any term (`nil` for a proper list), exactly what `enif_get_list_cell` walks.
* The `erl_nif` calls that only inspect the shape of a term are functions on `Term`.
  The three calls whose result is fixed by the Erlang runtime (`enif_binary_to_term`,
  `enif_term_to_binary`, `enif_compare`) are the fields of `Runtime`.
* `std::string` is a list of bytes; `erase`, `insert` and `replace` throw
  `std::out_of_range` when `pos > size()`, which is the `none` of `string_erase` etc.
* `unsigned int` is 32 bits wide: `pos + count` is reduced modulo `2 ^ 32`.
* Locals that the source reads without having written them (`existing_term` when no
  baseline was decoded, `op[0]` of a zero-arity tuple) take their value from
  `Indeterminate`.
-/

namespace erocksdb

/-- Contents of a `rocksdb::Slice` or of a `std::string`. -/
abbrev Bytes := List UInt8

/-- Erlang terms as seen through `erl_nif`. `other` stands for every term the merge
operator never looks into (floats, maps, pids, references, funs, bit strings). -/
inductive Term where
  | int (i : Int)
  | atom (name : String)
  | binary (bytes : Bytes)
  | tuple (elems : List Term)
  | nil
  | cons (hd tl : Term)
  | other (tag : Nat)

/-- The `erl_nif` calls whose result depends on the runtime rather than on the shape of
the term: `enif_binary_to_term` (`none` when it returns 0), `enif_term_to_binary`
(`none` when it returns 0) and `enif_compare`. -/
structure Runtime where
  enif_binary_to_term : Bytes → Option Term
  enif_term_to_binary : Term → Option Bytes
  enif_compare : Term → Term → Int

/-- Values of storage that `Merge` reads without having written it: the local
`existing_term` (declared without initialiser, assigned only by a successful decode of
the baseline) and the word read as `op[0]` when the update is the empty tuple. -/
structure Indeterminate where
  existing_term : Term
  op0 : Term

/-- What a call of `Merge` does: it returns a `bool` with `*new_value` in some state, or
`std::out_of_range` leaves the function. -/
inductive Outcome where
  | returned (ok : Bool) (new_value : Bytes)
  | out_of_range (new_value : Bytes)
deriving DecidableEq, Repr

/-- Where control is after the dispatch on `arity` and `op[0]`: a `return on_error(env)`
was taken, an exception left the function, or control reached `if (new_term)`. -/
inductive Flow where
  | on_error (new_value : Bytes)
  | out_of_range (new_value : Bytes)
  | fallthrough (new_term : Option Term) (new_value : Bytes)

/-! ## Atoms (atoms.h) -/

/-- Modelled from the spec: `atoms.h` is not part of the sources at hand; the kind tags
are pairwise distinct atoms, named here as in the erlang-rocksdb API (`int_add`). -/
def ATOM_MERGE_INT_ADD : String := "int_add"
/-- Modelled from the spec: kind tag of ListAppend (`atoms.h` missing). -/
def ATOM_MERGE_LIST_APPEND : String := "list_append"
/-- Modelled from the spec: kind tag of ListSubtract (`atoms.h` missing). -/
def ATOM_MERGE_LIST_SUBSTRACT : String := "list_substract"
/-- Modelled from the spec: kind tag of ListSet (`atoms.h` missing). -/
def ATOM_MERGE_LIST_SET : String := "list_set"
/-- Modelled from the spec: kind tag of both forms of ListDelete (`atoms.h` missing). -/
def ATOM_MERGE_LIST_DELETE : String := "list_delete"
/-- Modelled from the spec: kind tag of ListInsert (`atoms.h` missing). -/
def ATOM_MERGE_LIST_INSERT : String := "list_insert"
/-- Modelled from the spec: kind tag of BinaryAppend (`atoms.h` missing). -/
def ATOM_MERGE_BINARY_APPEND : String := "binary_append"
/-- Modelled from the spec: kind tag of BinaryReplace (`atoms.h` missing). -/
def ATOM_MERGE_BINARY_REPLACE : String := "binary_replace"
/-- Modelled from the spec: kind tag of BinaryInsert (`atoms.h` missing). -/
def ATOM_MERGE_BINARY_INSERT : String := "binary_insert"
/-- Modelled from the spec: kind tag of BinaryErase (`atoms.h` missing). -/
def ATOM_MERGE_BINARY_ERASE : String := "binary_erase"

/-- The test `op[0] == ATOM_X` on term words: an atom is an immediate word, so the test
holds exactly when the term is that atom. -/
def is_atom : Term → String → Bool
  | Term.atom n, a => decide (n = a)
  | _, _ => false

/-! ## erl_nif: inspecting and building terms -/

/-- Tuple view: `enif_get_tuple` gives the arity and the element array of a tuple. -/
def enif_get_tuple : Term → Option (List Term)
  | Term.tuple elems => some elems
  | _ => none

/-- Signed 64-bit view: `enif_get_int64` fails on a non-integer and on an integer outside
the range of `ErlNifSInt64`. -/
def enif_get_int64 : Term → Option Int
  | Term.int i => if -(2 : Int) ^ 63 ≤ i ∧ i < (2 : Int) ^ 63 then some i else none
  | _ => none

/-- Unsigned view: `enif_get_uint` fails on a non-integer, on a negative integer and on
one that does not fit `unsigned int`. -/
def enif_get_uint : Term → Option Nat
  | Term.int i => if 0 ≤ i ∧ i < (2 : Int) ^ 32 then some i.toNat else none
  | _ => none

/-- List test: `enif_is_list` holds for the empty list and for every list cell, whatever
the cell's tail is. -/
def enif_is_list : Term → Bool
  | Term.nil => true
  | Term.cons _ _ => true
  | _ => false

/-- Length of a proper list: `enif_get_list_length` fails on anything else. (Lists built
by `enif_binary_to_term` have fewer than `2 ^ 32` elements, the width of the length
field of the external format, so the `unsigned` result is the length itself.) -/
def enif_get_list_length : Term → Option Nat
  | Term.nil => some 0
  | Term.cons _ tl => (enif_get_list_length tl).map (· + 1)
  | _ => none

/-- Binary view: `enif_inspect_binary` fails on a term that is not a binary. -/
def enif_inspect_binary : Term → Option Bytes
  | Term.binary b => some b
  | _ => none

/-- Two's complement reduction of an integer to `ErlNifSInt64`. -/
def wrap_int64 (i : Int) : Int :=
  (i + (2 : Int) ^ 63) % (2 : Int) ^ 64 - (2 : Int) ^ 63

/-- Integer constructor: `enif_make_int64`. -/
def enif_make_int64 (i : Int) : Term := Term.int i

/-- Binary constructor: `memcpy(enif_make_new_binary(env, s.size(), &t), s.data(), s.size())`. -/
def enif_make_new_binary (s : Bytes) : Term := Term.binary s

/-- The loop `for (rq = q.rbegin(); rq != q.rend(); ++rq) new_term =
enif_make_list_cell(env, *rq, new_term)` started from `enif_make_list(env, 0)`. -/
def make_list_from_queue : List Term → Term
  | [] => Term.nil
  | x :: xs => Term.cons x (make_list_from_queue xs)

/-- List reversal of a chain built by prepending: `enif_make_reverse_list(env, list_in,
&new_term)`, with `list_in` held as the Lean list of its cells (last prepended first). -/
def enif_make_reverse_list (list_in : List Term) : Term :=
  make_list_from_queue list_in.reverse

/-- The loop `while (enif_get_list_cell(env, tail, &head, &tail)) q.push_back(head)`:
the heads of the cells of `tail`, up to the first term that is not a cell. -/
def push_back_cells : Term → List Term
  | Term.cons head tail => head :: push_back_cells tail
  | _ => []

/-! ## std::string -/

/-- Erasure: `s.erase(pos, count)` throws `std::out_of_range` (`none`) when
`pos > size()`, else removes `min(count, size() - pos)` characters from `pos` on. -/
def string_erase (s : Bytes) (pos count : Nat) : Option Bytes :=
  if pos > s.length then none
  else some (s.take pos ++ s.drop (pos + min count (s.length - pos)))

/-- Insertion: `s.insert(pos, chunk)` throws `std::out_of_range` (`none`) when
`pos > size()`, else inserts `chunk` before the character at `pos`. -/
def string_insert (s : Bytes) (pos : Nat) (chunk : Bytes) : Option Bytes :=
  if pos > s.length then none
  else some (s.take pos ++ chunk ++ s.drop pos)

/-- Replacement: `s.replace(pos, count, data, n)` throws `std::out_of_range` (`none`) when
`pos > size()`, else replaces the `min(count, size() - pos)` characters from `pos` on. -/
def string_replace (s : Bytes) (pos count : Nat) (r : Bytes) : Option Bytes :=
  if pos > s.length then none
  else some (s.take pos ++ r ++ s.drop (pos + min count (s.length - pos)))

/-- Clearing: `s.clear()` leaves the empty string. -/
def string_clear (_s : Bytes) : Bytes := []

/-- Sum of two `unsigned int`: `pos2 = pos + count`. -/
def uint_add (a b : Nat) : Nat := (a + b) % 2 ^ 32

/-! ## The handlers of `Merge` -/

/-- The early exit `bool on_error(ErlNifEnv* env)`: frees the environment, returns false. -/
def on_error (new_value : Bytes) : Flow := Flow.on_error new_value

/-- Lines 74-85: decoding of the baseline. `none` is the `return on_error(env)` of line
81; otherwise the pair is (`should_encode`, `existing_term`). The baseline is decoded only
when `existing_value != nullptr`, and `op[0]` is compared only when that decode fails. -/
def resolve_baseline (rt : Runtime) (ind : Indeterminate) (existing_value : Option Bytes)
    (op0 : Term) : Option (Bool × Term) :=
  match existing_value with
  | none => some (true, ind.existing_term)
  | some ev =>
    match rt.enif_binary_to_term ev with
    | some existing_term => some (true, existing_term)
    | none =>
      if !is_atom op0 ATOM_MERGE_BINARY_APPEND
          && !is_atom op0 ATOM_MERGE_BINARY_REPLACE
          && !is_atom op0 ATOM_MERGE_BINARY_INSERT
          && !is_atom op0 ATOM_MERGE_BINARY_ERASE then none
      else some (false, ind.existing_term)

/-- Lines 88-103, `ATOM_MERGE_INT_ADD`. The sum of two `ErlNifSInt64` is taken in two's
complement. -/
def merge_int_add (existing_value : Option Bytes) (existing_term op1 : Term)
    (new_value : Bytes) : Flow :=
  match (match existing_value with
         | none => some 0
         | some _ => enif_get_int64 existing_term) with
  | none => on_error new_value
  | some old_val =>
    match enif_get_int64 op1 with
    | none => on_error new_value
    | some val => Flow.fallthrough (some (enif_make_int64 (wrap_int64 (old_val + val)))) new_value

/-- Lines 105-130, `ATOM_MERGE_LIST_APPEND`. -/
def merge_list_append (existing_value : Option Bytes) (existing_term op1 : Term)
    (new_value : Bytes) : Flow :=
  match (match existing_value with
         | none => some []
         | some _ =>
           if !enif_is_list existing_term then none
           else some (push_back_cells existing_term)) with
  | none => on_error new_value
  | some q =>
    if !enif_is_list op1 then on_error new_value
    else Flow.fallthrough (some (make_list_from_queue (q ++ push_back_cells op1))) new_value

/-- The inner loop of lines 152-158: every element of `q` that compares equal to `head`
is erased. -/
def erase_equal (rt : Runtime) (head : Term) : List Term → List Term
  | [] => []
  | it :: rest =>
    if rt.enif_compare it head = 0 then erase_equal rt head rest
    else it :: erase_equal rt head rest

/-- The loop of lines 150-159 over the cells of `op[1]`. -/
def subtract_cells (rt : Runtime) : Term → List Term → List Term
  | Term.cons head tail, q => subtract_cells rt tail (erase_equal rt head q)
  | _, q => q

/-- Lines 132-165, `ATOM_MERGE_LIST_SUBSTRACT`. -/
def merge_list_substract (rt : Runtime) (existing_value : Option Bytes)
    (existing_term op1 : Term) (new_value : Bytes) : Flow :=
  match existing_value with
  | none => Flow.fallthrough (some Term.nil) new_value
  | some _ =>
    if !enif_is_list existing_term then on_error new_value
    else
      match enif_get_list_length op1 with
      | none => on_error new_value
      | some len =>
        if len = 0 then Flow.fallthrough (some existing_term) new_value
        else
          Flow.fallthrough
            (some (make_list_from_queue
              (subtract_cells rt op1 (push_back_cells existing_term)))) new_value

/-- The loop of lines 179-184: `list_in` after the walk from index `i`. -/
def list_delete_loop (pos : Nat) : Term → Nat → List Term → List Term
  | Term.cons head tail, i, list_in =>
    list_delete_loop pos tail (i + 1) (if pos ≠ i then head :: list_in else list_in)
  | _, _, list_in => list_in

/-- Lines 166-186, `ATOM_MERGE_LIST_DELETE` with arity 2. -/
def merge_list_delete (existing_term op1 : Term) (new_value : Bytes) : Flow :=
  match enif_get_uint op1 with
  | none => on_error new_value
  | some pos =>
    match enif_get_list_length existing_term with
    | none => on_error new_value
    | some len =>
      if pos ≥ len then on_error new_value
      else
        Flow.fallthrough
          (some (enif_make_reverse_list (list_delete_loop pos existing_term 0 []))) new_value

/-- Lines 187-208, `ATOM_MERGE_BINARY_APPEND`. -/
def merge_binary_append (existing_value : Option Bytes) (should_encode : Bool)
    (existing_term op1 : Term) (new_value : Bytes) : Flow :=
  match enif_inspect_binary op1 with
  | none => on_error new_value
  | some bin =>
    match existing_value with
    | none => Flow.fallthrough none bin
    | some ev =>
      if !should_encode then Flow.fallthrough none (ev ++ bin)
      else
        match enif_inspect_binary existing_term with
        | none => on_error new_value
        | some bin_term =>
          Flow.fallthrough (some (enif_make_new_binary (bin_term ++ bin))) new_value

/-- The loop of lines 226-233. -/
def list_set_loop (pos : Nat) (op2 : Term) : Term → Nat → List Term → List Term
  | Term.cons head tail, i, list_in =>
    list_set_loop pos op2 tail (i + 1) (if pos = i then op2 :: list_in else head :: list_in)
  | _, _, list_in => list_in

/-- Lines 211-235, `ATOM_MERGE_LIST_SET`. -/
def merge_list_set (existing_term op1 op2 : Term) (new_value : Bytes) : Flow :=
  match enif_get_uint op1 with
  | none => on_error new_value
  | some pos =>
    match enif_get_list_length existing_term with
    | none => on_error new_value
    | some len =>
      if pos ≥ len then on_error new_value
      else
        Flow.fallthrough
          (some (enif_make_reverse_list (list_set_loop pos op2 existing_term 0 []))) new_value

/-- The loop of lines 251-256. -/
def list_delete_range_loop (start end_ : Nat) : Term → Nat → List Term → List Term
  | Term.cons head tail, i, list_in =>
    list_delete_range_loop start end_ tail (i + 1)
      (if i < start ∨ i > end_ then head :: list_in else list_in)
  | _, _, list_in => list_in

/-- Lines 236-258, `ATOM_MERGE_LIST_DELETE` with arity 3. -/
def merge_list_delete_range (existing_term op1 op2 : Term) (new_value : Bytes) : Flow :=
  match enif_get_uint op1 with
  | none => on_error new_value
  | some start =>
    match enif_get_uint op2 with
    | none => on_error new_value
    | some end_ =>
      match enif_get_list_length existing_term with
      | none => on_error new_value
      | some len =>
        if start ≥ len ∨ start ≥ end_ ∨ end_ ≥ len then on_error new_value
        else
          Flow.fallthrough
            (some (enif_make_reverse_list
              (list_delete_range_loop start end_ existing_term 0 []))) new_value

/-- Where the walk `while (enif_get_list_cell(env, itail, &ihead, &itail))` leaves
`itail`: the first term of the chain that is not a cell. -/
def after_cells : Term → Term
  | Term.cons _ tail => after_cells tail
  | t => t

/-- The loop of lines 275-283: at index `pos` the cells of `itail` are prepended first
(the inner loop leaves `itail` at the end of its chain). -/
def list_insert_loop (pos : Nat) : Term → Term → Nat → List Term → List Term
  | Term.cons head tail, itail, i, list_in =>
    if pos = i then
      list_insert_loop pos tail (after_cells itail) (i + 1)
        (head :: ((push_back_cells itail).reverse ++ list_in))
    else list_insert_loop pos tail itail (i + 1) (head :: list_in)
  | _, _, _, list_in => list_in

/-- Lines 259-284, `ATOM_MERGE_LIST_INSERT`. -/
def merge_list_insert (existing_term op1 op2 : Term) (new_value : Bytes) : Flow :=
  match enif_get_uint op1 with
  | none => on_error new_value
  | some pos =>
    if !enif_is_list op2 then on_error new_value
    else
      match enif_get_list_length existing_term with
      | none => on_error new_value
      | some len =>
        if pos ≥ len then on_error new_value
        else
          Flow.fallthrough
            (some (enif_make_reverse_list (list_insert_loop pos existing_term op2 0 [])))
            new_value

/-- Lines 285-310, `ATOM_MERGE_BINARY_ERASE`. -/
def merge_binary_erase (existing_value : Option Bytes) (should_encode : Bool)
    (existing_term op1 op2 : Term) (new_value : Bytes) : Flow :=
  match enif_get_uint op1 with
  | none => on_error new_value
  | some pos =>
    match enif_get_uint op2 with
    | none => on_error new_value
    | some count =>
      match existing_value with
      | none => on_error new_value
      | some ev =>
        let pos2 := uint_add pos count
        if !should_encode then
          if pos2 > ev.length then on_error new_value
          else
            match string_erase ev pos count with
            | none => Flow.out_of_range ev
            | some s => Flow.fallthrough none s
        else
          match enif_inspect_binary existing_term with
          | none => on_error new_value
          | some bin_term =>
            if pos2 > bin_term.length then on_error new_value
            else
              match string_erase bin_term pos count with
              | none => Flow.out_of_range new_value
              | some s => Flow.fallthrough (some (enif_make_new_binary s)) new_value

/-- Lines 311-338, `ATOM_MERGE_BINARY_INSERT`. -/
def merge_binary_insert (existing_value : Option Bytes) (should_encode : Bool)
    (existing_term op1 op2 : Term) (new_value : Bytes) : Flow :=
  match enif_get_uint op1 with
  | none => on_error new_value
  | some pos =>
    match enif_inspect_binary op2 with
    | none => on_error new_value
    | some chunk =>
      match existing_value with
      | none => on_error new_value
      | some ev =>
        if !should_encode then
          if pos > ev.length then on_error new_value
          else
            match string_insert ev pos chunk with
            | none => Flow.out_of_range ev
            | some s => Flow.fallthrough none s
        else
          match enif_inspect_binary existing_term with
          | none => on_error new_value
          | some s =>
            if pos > s.length then on_error new_value
            else
              match string_insert s pos chunk with
              | none => Flow.out_of_range new_value
              | some s => Flow.fallthrough (some (enif_make_new_binary s)) new_value

/-- Lines 341-371, `ATOM_MERGE_BINARY_REPLACE`. -/
def merge_binary_replace (existing_value : Option Bytes) (should_encode : Bool)
    (existing_term op1 op2 op3 : Term) (new_value : Bytes) : Flow :=
  match enif_get_uint op1 with
  | none => on_error new_value
  | some pos =>
    match enif_get_uint op2 with
    | none => on_error new_value
    | some count =>
      match existing_value with
      | none => on_error new_value
      | some ev =>
        match enif_inspect_binary op3 with
        | none => on_error new_value
        | some bin =>
          let pos2 := uint_add pos count
          if !should_encode then
            if pos2 > ev.length then on_error new_value
            else
              match string_replace ev pos count bin with
              | none => Flow.out_of_range new_value
              | some s => Flow.fallthrough none s
          else
            match enif_inspect_binary existing_term with
            | none => on_error new_value
            | some bin_term =>
              if pos2 > bin_term.length then on_error new_value
              else
                match string_replace bin_term pos count bin with
                | none => Flow.out_of_range new_value
                | some s => Flow.fallthrough (some (enif_make_new_binary s)) new_value

/-! ## Merge -/

/-- Lines 87-372: the dispatch on `arity` and then on `op[0]`. A pair that matches no
branch leaves `new_term` and `new_value` as they are. -/
def dispatch (rt : Runtime) (existing_value : Option Bytes) (should_encode : Bool)
    (existing_term : Term) (op : List Term) (new_value : Bytes) : Flow :=
  match op with
  | [op0, op1] =>
    if is_atom op0 ATOM_MERGE_INT_ADD then
      merge_int_add existing_value existing_term op1 new_value
    else if is_atom op0 ATOM_MERGE_LIST_APPEND then
      merge_list_append existing_value existing_term op1 new_value
    else if is_atom op0 ATOM_MERGE_LIST_SUBSTRACT then
      merge_list_substract rt existing_value existing_term op1 new_value
    else if is_atom op0 ATOM_MERGE_LIST_DELETE then
      merge_list_delete existing_term op1 new_value
    else if is_atom op0 ATOM_MERGE_BINARY_APPEND then
      merge_binary_append existing_value should_encode existing_term op1 new_value
    else Flow.fallthrough none new_value
  | [op0, op1, op2] =>
    if is_atom op0 ATOM_MERGE_LIST_SET then
      merge_list_set existing_term op1 op2 new_value
    else if is_atom op0 ATOM_MERGE_LIST_DELETE then
      merge_list_delete_range existing_term op1 op2 new_value
    else if is_atom op0 ATOM_MERGE_LIST_INSERT then
      merge_list_insert existing_term op1 op2 new_value
    else if is_atom op0 ATOM_MERGE_BINARY_ERASE then
      merge_binary_erase existing_value should_encode existing_term op1 op2 new_value
    else if is_atom op0 ATOM_MERGE_BINARY_INSERT then
      merge_binary_insert existing_value should_encode existing_term op1 op2 new_value
    else Flow.fallthrough none new_value
  | [op0, op1, op2, op3] =>
    if is_atom op0 ATOM_MERGE_BINARY_REPLACE then
      merge_binary_replace existing_value should_encode existing_term op1 op2 op3 new_value
    else Flow.fallthrough none new_value
  | _ => Flow.fallthrough none new_value

/-- The word read as `op[0]`: the first element of the tuple, and for the empty tuple
whatever lies behind its header. -/
def op_0 (ind : Indeterminate) : List Term → Term
  | [] => ind.op0
  | op0 :: _ => op0

/-- Lines 72-373: the body of `if (enif_get_tuple(env, term, &arity, &op))`. -/
def merge_tuple (rt : Runtime) (ind : Indeterminate) (existing_value : Option Bytes)
    (term : Term) (new_value : Bytes) : Flow :=
  match enif_get_tuple term with
  | none => Flow.fallthrough none new_value
  | some op =>
    match resolve_baseline rt ind existing_value (op_0 ind op) with
    | none => on_error new_value
    | some (should_encode, existing_term) =>
      dispatch rt existing_value should_encode existing_term op new_value

/-- Lines 375-387: a term in `new_term` is encoded into `*new_value`. -/
def encode_result (rt : Runtime) : Flow → Outcome
  | Flow.on_error new_value => Outcome.returned false new_value
  | Flow.out_of_range new_value => Outcome.out_of_range new_value
  | Flow.fallthrough none new_value => Outcome.returned true new_value
  | Flow.fallthrough (some new_term) new_value =>
    match rt.enif_term_to_binary new_term with
    | none => Outcome.returned false new_value
    | some bin => Outcome.returned true bin

/-- The method `bool ErlangMergeOperator::Merge(key, existing_value, value, new_value,
logger)`. `key` and `logger` are never read. `existing_value` is `none` for `nullptr`;
`new_value` is the content of `*new_value` on entry, and the result carries its content
when the call ends. -/
def Merge (rt : Runtime) (ind : Indeterminate) (existing_value : Option Bytes)
    (value : Bytes) (new_value : Bytes) : Outcome :=
  let new_value : Bytes := string_clear new_value
  match rt.enif_binary_to_term value with
  | none => encode_result rt (on_error new_value)
  | some term => encode_result rt (merge_tuple rt ind existing_value term new_value)

/-! ## A concrete runtime: the external term format

`Runtime` is a parameter of every general theorem. To evaluate `Merge` on concrete byte
buffers the development also provides one instance, `etf`, that implements the part of
the Erlang external term format (the format behind `enif_binary_to_term` and
`enif_term_to_binary`) whose terms are integers, floats, atoms, binaries, tuples and
lists. A float is the term `Term.other n` with `n` its IEEE 754 binary64 bit pattern. -/

/-- The low `n` bytes of `v`, most significant first. -/
def be_bytes : Nat → Nat → Bytes
  | 0, _ => []
  | n + 1, v => be_bytes n (v / 256) ++ [UInt8.ofNat (v % 256)]

/-- The number written by bytes, most significant first. -/
def be_value (bs : Bytes) : Nat :=
  bs.foldl (fun acc b => acc * 256 + b.toNat) 0

/-- The number written by bytes, least significant first. -/
def le_value : Bytes → Nat
  | [] => 0
  | b :: bs => b.toNat + 256 * le_value bs

/-- The bytes of `v`, least significant first, when at most `n` are needed. -/
def le_bytes : Nat → Nat → Option Bytes
  | 0, v => if v = 0 then some [] else none
  | n + 1, v =>
    if v = 0 then some [] else (le_bytes n (v / 256)).map (UInt8.ofNat (v % 256) :: ·)

/-- Atom names are written in Latin-1. -/
def name_of_bytes (bs : Bytes) : String :=
  String.mk (bs.map (fun b => Char.ofNat b.toNat))

/-- The bytes of an atom name. -/
def bytes_of_name (n : String) : Bytes :=
  n.data.map (fun c => UInt8.ofNat c.toNat)

/-- The chain `e_1, ..., e_k | tail` as list cells. -/
def make_cells : List Term → Term → Term
  | [], tail => tail
  | x :: xs, tail => Term.cons x (make_cells xs tail)

/-- Decoder of `n` consecutive terms; the first argument bounds the nesting depth plus
the number of terms read in a row. Tags: 97 SMALL_INTEGER_EXT, 98 INTEGER_EXT,
110 SMALL_BIG_EXT, 119 SMALL_ATOM_UTF8_EXT, 100 ATOM_EXT, 104 SMALL_TUPLE_EXT,
106 NIL_EXT, 107 STRING_EXT, 108 LIST_EXT, 109 BINARY_EXT, 70 NEW_FLOAT_EXT. -/
def etf_terms : Nat → Nat → Bytes → Option (List Term × Bytes)
  | _, 0, bs => some ([], bs)
  | 0, _ + 1, _ => none
  | fuel + 1, n + 1, bs =>
    let one : Option (Term × Bytes) :=
      match bs with
      | [] => none
      | tag :: rest =>
        if tag = 97 then
          match rest with
          | v :: rest => some (Term.int v.toNat, rest)
          | _ => none
        else if tag = 98 then
          if rest.length < 4 then none
          else
            let v := be_value (rest.take 4)
            some (Term.int (if v < 2 ^ 31 then (v : Int) else (v : Int) - 2 ^ 32), rest.drop 4)
        else if tag = 110 then
          match rest with
          | k :: sign :: rest =>
            if rest.length < k.toNat then none
            else
              let v := le_value (rest.take k.toNat)
              some (Term.int (if sign = 0 then (v : Int) else -(v : Int)), rest.drop k.toNat)
          | _ => none
        else if tag = 119 then
          match rest with
          | k :: rest =>
            if rest.length < k.toNat then none
            else some (Term.atom (name_of_bytes (rest.take k.toNat)), rest.drop k.toNat)
          | _ => none
        else if tag = 100 then
          if rest.length < 2 then none
          else
            let k := be_value (rest.take 2)
            let rest := rest.drop 2
            if rest.length < k then none
            else some (Term.atom (name_of_bytes (rest.take k)), rest.drop k)
        else if tag = 104 then
          match rest with
          | k :: rest =>
            match etf_terms fuel k.toNat rest with
            | some (elems, rest) => some (Term.tuple elems, rest)
            | none => none
          | _ => none
        else if tag = 106 then some (Term.nil, rest)
        else if tag = 107 then
          if rest.length < 2 then none
          else
            let k := be_value (rest.take 2)
            let rest := rest.drop 2
            if rest.length < k then none
            else
              some (make_cells ((rest.take k).map (fun b => Term.int b.toNat)) Term.nil,
                rest.drop k)
        else if tag = 108 then
          if rest.length < 4 then none
          else
            let k := be_value (rest.take 4)
            match etf_terms fuel (k + 1) (rest.drop 4) with
            | some (elems, rest) =>
              some (make_cells (elems.take k) (elems.getD k Term.nil), rest)
            | none => none
        else if tag = 109 then
          if rest.length < 4 then none
          else
            let k := be_value (rest.take 4)
            let rest := rest.drop 4
            if rest.length < k then none
            else some (Term.binary (rest.take k), rest.drop k)
        else if tag = 70 then
          if rest.length < 8 then none
          else some (Term.other (be_value (rest.take 8)), rest.drop 8)
        else none
    match one with
    | none => none
    | some (t, rest) =>
      match etf_terms fuel n rest with
      | some (ts, rest) => some (t :: ts, rest)
      | none => none

/-- Decoding of a buffer: the version byte 131, then one term. -/
def etf_binary_to_term (bs : Bytes) : Option Term :=
  match bs with
  | tag :: rest =>
    if tag = 131 then
      match etf_terms (rest.length + 1) 1 rest with
      | some ([t], _) => some t
      | _ => none
    else none
  | [] => none

/-- Encoding of an integer: SMALL_INTEGER_EXT, INTEGER_EXT or SMALL_BIG_EXT. -/
def etf_int (i : Int) : Option Bytes :=
  if 0 ≤ i ∧ i < 256 then some [97, UInt8.ofNat i.toNat]
  else if -(2 : Int) ^ 31 ≤ i ∧ i < (2 : Int) ^ 31 then
    some (98 :: be_bytes 4 (i % (2 : Int) ^ 32).toNat)
  else
    match le_bytes 255 i.natAbs with
    | some ds => some (110 :: UInt8.ofNat ds.length :: (if i < 0 then 1 else 0) :: ds)
    | none => none

/-- Encoding of an atom: SMALL_ATOM_UTF8_EXT. -/
def etf_atom (n : String) : Option Bytes :=
  if n.length < 256 then some (119 :: UInt8.ofNat n.length :: bytes_of_name n) else none

/-- Encoding of a binary: BINARY_EXT. -/
def etf_binary (b : Bytes) : Option Bytes :=
  if b.length < 2 ^ 32 then some (109 :: (be_bytes 4 b.length ++ b)) else none

/-- Encoding of a float: NEW_FLOAT_EXT, the eight bytes of the bit pattern. -/
def etf_float (bits : Nat) : Option Bytes :=
  if bits < 2 ^ 64 then some (70 :: be_bytes 8 bits) else none

/-- The characters of a proper list of bytes, which is written as STRING_EXT. -/
def string_chars : Term → Option Bytes
  | Term.nil => some []
  | Term.cons (Term.int i) tl =>
    if 0 ≤ i ∧ i < 256 then (string_chars tl).map (UInt8.ofNat i.toNat :: ·) else none
  | _ => none

mutual
/-- Encoder of one term (without the version byte). -/
def etf_term : Term → Option Bytes
  | Term.int i => etf_int i
  | Term.atom n => etf_atom n
  | Term.binary b => etf_binary b
  | Term.tuple elems =>
    if elems.length < 256 then
      (etf_seq elems).map (fun bs => 104 :: UInt8.ofNat elems.length :: bs)
    else none
  | Term.nil => some [106]
  | Term.cons hd tl =>
    match string_chars (Term.cons hd tl) with
    | some cs =>
      if cs.length < 65536 then some (107 :: (be_bytes 2 cs.length ++ cs))
      else
        match etf_term hd, etf_chain tl with
        | some e, some r => some (108 :: (be_bytes 4 (1 + (push_back_cells tl).length) ++ e ++ r))
        | _, _ => none
    | none =>
      match etf_term hd, etf_chain tl with
      | some e, some r => some (108 :: (be_bytes 4 (1 + (push_back_cells tl).length) ++ e ++ r))
      | _, _ => none
  | Term.other bits => etf_float bits
/-- Encoder of the rest of a chain of cells: the remaining heads, then the tail. -/
def etf_chain : Term → Option Bytes
  | Term.cons hd tl =>
    match etf_term hd, etf_chain tl with
    | some e, some r => some (e ++ r)
    | _, _ => none
  | Term.int i => etf_int i
  | Term.atom n => etf_atom n
  | Term.binary b => etf_binary b
  | Term.tuple elems =>
    if elems.length < 256 then
      (etf_seq elems).map (fun bs => 104 :: UInt8.ofNat elems.length :: bs)
    else none
  | Term.nil => some [106]
  | Term.other bits => etf_float bits
/-- Encoder of the elements of a tuple, one after the other. -/
def etf_seq : List Term → Option Bytes
  | [] => some []
  | t :: ts =>
    match etf_term t, etf_seq ts with
    | some e, some r => some (e ++ r)
    | _, _ => none
end

/-- Encoding of a term: the version byte 131, then the term. -/
def etf_term_to_binary (t : Term) : Option Bytes :=
  (etf_term t).map (131 :: ·)

mutual
/-- Structural equality of terms. -/
def term_eq : Term → Term → Bool
  | Term.int i, Term.int j => decide (i = j)
  | Term.atom n, Term.atom m => decide (n = m)
  | Term.binary b, Term.binary c => decide (b = c)
  | Term.tuple es, Term.tuple fs => terms_eq es fs
  | Term.nil, Term.nil => true
  | Term.cons h t, Term.cons k u => term_eq h k && term_eq t u
  | Term.other a, Term.other b => decide (a = b)
  | _, _ => false
/-- Structural equality of sequences of terms. -/
def terms_eq : List Term → List Term → Bool
  | [], [] => true
  | t :: ts, u :: us => term_eq t u && terms_eq ts us
  | _, _ => false
end

/-- The integer that a binary64 bit pattern denotes, if it denotes one: bit 63 is the
sign, bits 52 to 62 the biased exponent `e`, bits 0 to 51 the fraction `m`, and for
`0 < e < 2047` the magnitude is `(2 ^ 52 + m) * 2 ^ (e - 1075)`. Both zeros denote 0;
subnormal numbers, infinities and NaN denote no integer. -/
def float_integer (bits : Nat) : Option Int :=
  let e := bits / 2 ^ 52 % 2048
  let m := bits % 2 ^ 52
  let magnitude : Option Nat :=
    if e = 0 then (if m = 0 then some 0 else none)
    else if e = 2047 then none
    else if 1075 ≤ e then some ((2 ^ 52 + m) * 2 ^ (e - 1075))
    else if (2 ^ 52 + m) % 2 ^ (1075 - e) = 0 then some ((2 ^ 52 + m) / 2 ^ (1075 - e))
    else none
  magnitude.map (fun v => if bits / 2 ^ 63 % 2 = 0 then (v : Int) else -(v : Int))

mutual
/-- Equality of terms as the Erlang operator `==` and `enif_compare` decide it: as
`term_eq`, except that numbers are compared by value, so that an integer and a float
of the same value are equal (`1 == 1.0`), as are the two zeros, also inside lists and
tuples. -/
def erl_eq : Term → Term → Bool
  | Term.int i, Term.int j => decide (i = j)
  | Term.int i, Term.other f => decide (float_integer f = some i)
  | Term.other f, Term.int i => decide (float_integer f = some i)
  | Term.other f, Term.other g =>
    decide (f = g) || (decide (float_integer f = some 0) && decide (float_integer g = some 0))
  | Term.atom n, Term.atom m => decide (n = m)
  | Term.binary b, Term.binary c => decide (b = c)
  | Term.tuple es, Term.tuple fs => erl_eqs es fs
  | Term.nil, Term.nil => true
  | Term.cons h t, Term.cons k u => erl_eq h k && erl_eq t u
  | _, _ => false
/-- The operator `==` on sequences of terms. -/
def erl_eqs : List Term → List Term → Bool
  | [], [] => true
  | t :: ts, u :: us => erl_eq t u && erl_eqs ts us
  | _, _ => false
end

/-- The concrete runtime. `enif_compare` gives 0 exactly for terms that are equal as
`==` has it; the sign of a non-zero result is not used by `Merge`. -/
def etf : Runtime where
  enif_binary_to_term := etf_binary_to_term
  enif_term_to_binary := etf_term_to_binary
  enif_compare := fun a b => if erl_eq a b then 0 else 1

/-- Some indeterminate values, for evaluating `Merge`. -/
def junk : Indeterminate where
  existing_term := Term.other 0
  op0 := Term.other 0

/-! ## Vocabulary of the specification -/

/-- The closed enumeration of operation kinds of the specification (section 4.4); the
two forms of ListDelete are kept apart. -/
inductive Kind where
  | IntAdd | ListAppend | ListSubtract | ListDelete | BinaryAppend
  | ListSet | ListDeleteRange | ListInsert | BinaryErase | BinaryInsert
  | BinaryReplace
deriving DecidableEq, Repr

/-- The tag atom of a kind. -/
def Kind.tag : Kind → String
  | Kind.IntAdd => ATOM_MERGE_INT_ADD
  | Kind.ListAppend => ATOM_MERGE_LIST_APPEND
  | Kind.ListSubtract => ATOM_MERGE_LIST_SUBSTRACT
  | Kind.ListDelete => ATOM_MERGE_LIST_DELETE
  | Kind.BinaryAppend => ATOM_MERGE_BINARY_APPEND
  | Kind.ListSet => ATOM_MERGE_LIST_SET
  | Kind.ListDeleteRange => ATOM_MERGE_LIST_DELETE
  | Kind.ListInsert => ATOM_MERGE_LIST_INSERT
  | Kind.BinaryErase => ATOM_MERGE_BINARY_ERASE
  | Kind.BinaryInsert => ATOM_MERGE_BINARY_INSERT
  | Kind.BinaryReplace => ATOM_MERGE_BINARY_REPLACE

/-- The arity of the operation tuple of a kind (the column Arity of section 4.4: the tag
counts as one element). -/
def Kind.arity : Kind → Nat
  | Kind.IntAdd => 2
  | Kind.ListAppend => 2
  | Kind.ListSubtract => 2
  | Kind.ListDelete => 2
  | Kind.BinaryAppend => 2
  | Kind.ListSet => 3
  | Kind.ListDeleteRange => 3
  | Kind.ListInsert => 3
  | Kind.BinaryErase => 3
  | Kind.BinaryInsert => 3
  | Kind.BinaryReplace => 4

/-- The kinds that accept a baseline that is not a term encoding (section 4.3). -/
def Kind.raw_path : Kind → Bool
  | Kind.BinaryAppend => true
  | Kind.BinaryReplace => true
  | Kind.BinaryInsert => true
  | Kind.BinaryErase => true
  | _ => false

/-- The variants of a structured term that a handler expects of the baseline. -/
inductive Variant where
  | Integer | List | Binary
deriving DecidableEq, Repr

/-- The variant of the baseline that a kind works on. -/
def Kind.variant : Kind → Variant
  | Kind.IntAdd => Variant.Integer
  | Kind.ListAppend => Variant.List
  | Kind.ListSubtract => Variant.List
  | Kind.ListDelete => Variant.List
  | Kind.ListSet => Variant.List
  | Kind.ListDeleteRange => Variant.List
  | Kind.ListInsert => Variant.List
  | Kind.BinaryAppend => Variant.Binary
  | Kind.BinaryErase => Variant.Binary
  | Kind.BinaryInsert => Variant.Binary
  | Kind.BinaryReplace => Variant.Binary

/-- Membership of a term in a variant; a list is the empty list or a list cell, as for
the Erlang type test `is_list`. -/
def has_variant : Variant → Term → Bool
  | Variant.Integer, Term.int _ => true
  | Variant.List, Term.nil => true
  | Variant.List, Term.cons _ _ => true
  | Variant.Binary, Term.binary _ => true
  | _, _ => false

/-- A tuple is the operation tuple of kind `k` when its first element is the tag of `k`
and it has the arity of `k` (section 4.2). -/
def is_operation (k : Kind) (op : List Term) : Bool :=
  match op with
  | [] => false
  | op0 :: _ => is_atom op0 k.tag && decide (op.length = k.arity)

/-- The tag test of the baseline gate: one of the four binary tags of lines 77-80. -/
def is_raw_path_tag (op0 : Term) : Bool :=
  is_atom op0 ATOM_MERGE_BINARY_APPEND || is_atom op0 ATOM_MERGE_BINARY_REPLACE
    || is_atom op0 ATOM_MERGE_BINARY_INSERT || is_atom op0 ATOM_MERGE_BINARY_ERASE

/-- The output buffer is still empty wherever a path can end in `return false`: at an
early exit, and when a term is handed to the encoder. -/
def Flow.clean : Flow → Prop
  | Flow.on_error new_value => new_value = []
  | Flow.fallthrough (some _) new_value => new_value = []
  | _ => True

/-! ## Lemmas on the dispatch -/

theorem dispatch_no_operation (rt : Runtime) (existing_value : Option Bytes)
    (should_encode : Bool) (existing_term : Term) (op : List Term) (new_value : Bytes)
    (h : ∀ k, is_operation k op = false) :
    dispatch rt existing_value should_encode existing_term op new_value
      = Flow.fallthrough none new_value := by
  have h1 := h Kind.IntAdd
  have h2 := h Kind.ListAppend
  have h3 := h Kind.ListSubtract
  have h4 := h Kind.ListDelete
  have h5 := h Kind.BinaryAppend
  have h6 := h Kind.ListSet
  have h7 := h Kind.ListDeleteRange
  have h8 := h Kind.ListInsert
  have h9 := h Kind.BinaryErase
  have h10 := h Kind.BinaryInsert
  have h11 := h Kind.BinaryReplace
  unfold dispatch
  split
  · simp [is_operation, Kind.tag, Kind.arity] at h1 h2 h3 h4 h5
    simp [h1, h2, h3, h4, h5]
  · simp [is_operation, Kind.tag, Kind.arity] at h6 h7 h8 h9 h10
    simp [h6, h7, h8, h9, h10]
  · simp [is_operation, Kind.tag, Kind.arity] at h11
    simp [h11]
  · rfl

/-- C1 (as amended). An update that decodes to a term that is not a tuple, or to a tuple
that is the operation tuple of no kind (unrecognised tag, or an arity other than the one
of its tag), makes `Merge` return false only when the update is a tuple, a baseline is
present, the baseline does not decode and the tag is none of the four binary tags; in
every other case `Merge` returns true and leaves the output buffer empty. -/
theorem merge_update_without_handler (rt : Runtime) (ind : Indeterminate)
    (existing_value : Option Bytes) (value new_value : Bytes) (term : Term)
    (hdec : rt.enif_binary_to_term value = some term)
    (hmal : ∀ op, enif_get_tuple term = some op → ∀ k, is_operation k op = false) :
    Merge rt ind existing_value value new_value =
      Outcome.returned
        (match enif_get_tuple term, existing_value with
         | some op, some ev =>
           (rt.enif_binary_to_term ev).isSome || is_raw_path_tag (op_0 ind op)
         | _, _ => true) [] := by
  unfold Merge
  simp only [hdec, string_clear, merge_tuple]
  cases hop : enif_get_tuple term with
  | none => simp [encode_result]
  | some op =>
    have hd := fun ev se et => dispatch_no_operation rt ev se et op [] (hmal op hop)
    cases existing_value with
    | none => simp [resolve_baseline, hd, encode_result]
    | some ev =>
      cases hev : rt.enif_binary_to_term ev with
      | some t => simp [resolve_baseline, hev, hd, encode_result]
      | none =>
        simp only [resolve_baseline, hev, is_raw_path_tag]
        generalize op_0 ind op = op0
        cases is_atom op0 ATOM_MERGE_BINARY_APPEND <;>
          cases is_atom op0 ATOM_MERGE_BINARY_REPLACE <;>
          cases is_atom op0 ATOM_MERGE_BINARY_INSERT <;>
          cases is_atom op0 ATOM_MERGE_BINARY_ERASE <;>
          simp [hd, encode_result, on_error]

/-- Witness of `merge_update_without_handler`: the tuple `{foo, 1}`, the operation tuple
of no kind, against the raw baseline `abc` is refused at the baseline gate. -/
theorem merge_update_without_handler_witness :
    etf.enif_binary_to_term [131, 104, 2, 119, 3, 102, 111, 111, 97, 1]
        = some (Term.tuple [Term.atom "foo", Term.int 1])
      ∧ (∀ op, enif_get_tuple (Term.tuple [Term.atom "foo", Term.int 1]) = some op →
          ∀ k, is_operation k op = false)
      ∧ Merge etf junk (some [97, 98, 99]) [131, 104, 2, 119, 3, 102, 111, 111, 97, 1] [9]
        = Outcome.returned false [] :=
  ⟨rfl,
   (by intro op h k; cases h; cases k <;> rfl),
   merge_update_without_handler etf junk (some [97, 98, 99])
     [131, 104, 2, 119, 3, 102, 111, 111, 97, 1] [9]
     (Term.tuple [Term.atom "foo", Term.int 1]) rfl
     (by intro op h k; cases h; cases k <;> rfl)⟩

/-- C1 (as stated) fails: with no baseline, the integer `7`, the tuple `{foo, 1}` and
the tuple `{int_add, 1, 2}` (by bytes: their external term format) all make `Merge`
return true, with an empty output buffer. -/
theorem merge_accepts_update_without_handler :
    (etf.enif_binary_to_term [131, 97, 7] = some (Term.int 7)
      ∧ Merge etf junk none [131, 97, 7] [] = Outcome.returned true [])
    ∧ (etf.enif_binary_to_term [131, 104, 2, 119, 3, 102, 111, 111, 97, 1]
          = some (Term.tuple [Term.atom "foo", Term.int 1])
      ∧ Merge etf junk none [131, 104, 2, 119, 3, 102, 111, 111, 97, 1] []
          = Outcome.returned true [])
    ∧ (etf.enif_binary_to_term [131, 104, 3, 119, 7, 105, 110, 116, 95, 97, 100, 100, 97, 1, 97, 2]
          = some (Term.tuple [Term.atom "int_add", Term.int 1, Term.int 2])
      ∧ Merge etf junk none
          [131, 104, 3, 119, 7, 105, 110, 116, 95, 97, 100, 100, 97, 1, 97, 2] []
          = Outcome.returned true []) :=
  ⟨⟨rfl, rfl⟩, ⟨rfl, rfl⟩, ⟨rfl, rfl⟩⟩

/-! ## Failure leaves the buffer empty -/

theorem merge_int_add_clean (ev : Option Bytes) (t op1 : Term) :
    (merge_int_add ev t op1 []).clean := by
  unfold merge_int_add on_error
  repeat' split
  all_goals simp [Flow.clean]

theorem merge_list_append_clean (ev : Option Bytes) (t op1 : Term) :
    (merge_list_append ev t op1 []).clean := by
  unfold merge_list_append on_error
  repeat' split
  all_goals simp [Flow.clean]

theorem merge_list_substract_clean (rt : Runtime) (ev : Option Bytes) (t op1 : Term) :
    (merge_list_substract rt ev t op1 []).clean := by
  unfold merge_list_substract on_error
  repeat' split
  all_goals simp [Flow.clean]

theorem merge_list_delete_clean (t op1 : Term) : (merge_list_delete t op1 []).clean := by
  unfold merge_list_delete on_error
  repeat' split
  all_goals simp [Flow.clean]

theorem merge_binary_append_clean (ev : Option Bytes) (se : Bool) (t op1 : Term) :
    (merge_binary_append ev se t op1 []).clean := by
  unfold merge_binary_append on_error
  repeat' split
  all_goals simp [Flow.clean]

theorem merge_list_set_clean (t op1 op2 : Term) : (merge_list_set t op1 op2 []).clean := by
  unfold merge_list_set on_error
  repeat' split
  all_goals simp [Flow.clean]

theorem merge_list_delete_range_clean (t op1 op2 : Term) :
    (merge_list_delete_range t op1 op2 []).clean := by
  unfold merge_list_delete_range on_error
  repeat' split
  all_goals simp [Flow.clean]

theorem merge_list_insert_clean (t op1 op2 : Term) :
    (merge_list_insert t op1 op2 []).clean := by
  unfold merge_list_insert on_error
  repeat' split
  all_goals simp [Flow.clean]

theorem merge_binary_erase_clean (ev : Option Bytes) (se : Bool) (t op1 op2 : Term) :
    (merge_binary_erase ev se t op1 op2 []).clean := by
  unfold merge_binary_erase on_error
  repeat' split
  all_goals (simp [Flow.clean] <;> split_ifs <;> simp)

theorem merge_binary_insert_clean (ev : Option Bytes) (se : Bool) (t op1 op2 : Term) :
    (merge_binary_insert ev se t op1 op2 []).clean := by
  unfold merge_binary_insert on_error
  repeat' split
  all_goals simp [Flow.clean]

theorem merge_binary_replace_clean (ev : Option Bytes) (se : Bool) (t op1 op2 op3 : Term) :
    (merge_binary_replace ev se t op1 op2 op3 []).clean := by
  unfold merge_binary_replace on_error
  repeat' split
  all_goals (simp [Flow.clean] <;> split_ifs <;> simp)

theorem dispatch_clean (rt : Runtime) (ev : Option Bytes) (se : Bool) (t : Term)
    (op : List Term) : (dispatch rt ev se t op []).clean := by
  unfold dispatch
  split
  · split_ifs
    · exact merge_int_add_clean ev t _
    · exact merge_list_append_clean ev t _
    · exact merge_list_substract_clean rt ev t _
    · exact merge_list_delete_clean t _
    · exact merge_binary_append_clean ev se t _
    · trivial
  · split_ifs
    · exact merge_list_set_clean t _ _
    · exact merge_list_delete_range_clean t _ _
    · exact merge_list_insert_clean t _ _
    · exact merge_binary_erase_clean ev se t _ _
    · exact merge_binary_insert_clean ev se t _ _
    · trivial
  · split_ifs
    · exact merge_binary_replace_clean ev se t _ _ _
    · trivial
  · trivial

theorem merge_tuple_clean (rt : Runtime) (ind : Indeterminate) (ev : Option Bytes)
    (term : Term) : (merge_tuple rt ind ev term []).clean := by
  unfold merge_tuple
  split
  · trivial
  · split
    · simp [on_error, Flow.clean]
    · exact dispatch_clean rt ev _ _ _

/-- C2 (as amended). Whenever `Merge` returns false the output buffer is empty after the
call, whatever it held on entry: the buffer is cleared on entry and no path that ends in
`return false` has written to it. -/
theorem merge_failure_leaves_buffer_empty (rt : Runtime) (ind : Indeterminate)
    (existing_value : Option Bytes) (value new_value out : Bytes)
    (hfail : Merge rt ind existing_value value new_value = Outcome.returned false out) :
    out = [] := by
  unfold Merge at hfail
  simp only [string_clear] at hfail
  cases hv : rt.enif_binary_to_term value with
  | none =>
    simp only [hv, on_error, encode_result, Outcome.returned.injEq, true_and] at hfail
    exact hfail.symm
  | some term =>
    simp only [hv] at hfail
    have hclean := merge_tuple_clean rt ind existing_value term
    cases hflow : merge_tuple rt ind existing_value term [] with
    | on_error nv =>
      rw [hflow] at hfail hclean
      simp only [encode_result, Outcome.returned.injEq, true_and] at hfail
      rw [← hfail]; exact hclean
    | out_of_range nv =>
      rw [hflow] at hfail
      simp [encode_result] at hfail
    | fallthrough new_term nv =>
      rw [hflow] at hfail hclean
      cases new_term with
      | none => simp [encode_result] at hfail
      | some t =>
        cases henc : rt.enif_term_to_binary t with
        | none =>
          simp only [encode_result, henc, Outcome.returned.injEq, true_and] at hfail
          rw [← hfail]; exact hclean
        | some bin => simp [encode_result, henc] at hfail

/-- Witness of `merge_failure_leaves_buffer_empty`: an update buffer that does not
decode, with the byte 1 in the output buffer on entry. -/
theorem merge_failure_leaves_buffer_empty_witness :
    Merge etf junk none [] [1] = Outcome.returned false [] ∧ ([] : Bytes) = [] :=
  ⟨rfl, merge_failure_leaves_buffer_empty etf junk none [] [1] [] rfl⟩

/-- C2 (as stated) fails: the empty update buffer does not decode, `Merge` returns false,
and the output buffer that held the byte 1 on entry is empty afterwards. -/
theorem merge_failure_clears_buffer :
    Merge etf junk none [] [1] = Outcome.returned false [] ∧ ([] : Bytes) ≠ [1] :=
  ⟨rfl, by decide⟩

/-! ## Baselines that the handlers refuse -/

theorem is_atom_eq_true {t : Term} {a : String} (h : is_atom t a = true) :
    t = Term.atom a := by
  cases t <;> simp_all [is_atom]

theorem is_operation_shape {k : Kind} {op : List Term} (h : is_operation k op = true) :
    ∃ args, op = Term.atom k.tag :: args ∧ args.length + 1 = k.arity := by
  cases op with
  | nil => simp [is_operation] at h
  | cons op0 args =>
    simp only [is_operation, Bool.and_eq_true, decide_eq_true_eq, List.length_cons] at h
    exact ⟨args, by rw [is_atom_eq_true h.1], h.2⟩

theorem get_int64_of_not_integer {t : Term} (h : has_variant Variant.Integer t = false) :
    enif_get_int64 t = none := by
  cases t <;> simp_all [has_variant, enif_get_int64]

theorem is_list_of_not_list {t : Term} (h : has_variant Variant.List t = false) :
    enif_is_list t = false := by
  cases t <;> simp_all [has_variant, enif_is_list]

theorem list_length_of_not_list {t : Term} (h : has_variant Variant.List t = false) :
    enif_get_list_length t = none := by
  cases t <;> simp_all [has_variant, enif_get_list_length]

theorem inspect_binary_of_not_binary {t : Term} (h : has_variant Variant.Binary t = false) :
    enif_inspect_binary t = none := by
  cases t <;> simp_all [has_variant, enif_inspect_binary]

/-- `Merge` on an update that decodes to a tuple, with a baseline that decodes. -/
theorem merge_structured (rt : Runtime) (ind : Indeterminate) (ev value new_value : Bytes)
    (op : List Term) (t : Term)
    (hdec : rt.enif_binary_to_term value = some (Term.tuple op))
    (hev : rt.enif_binary_to_term ev = some t) :
    Merge rt ind (some ev) value new_value
      = encode_result rt (dispatch rt (some ev) true t op []) := by
  simp [Merge, hdec, string_clear, merge_tuple, enif_get_tuple, resolve_baseline, hev]

/-- `Merge` on an update that decodes to a tuple, with no baseline. -/
theorem merge_absent (rt : Runtime) (ind : Indeterminate) (value new_value : Bytes)
    (op : List Term) (hdec : rt.enif_binary_to_term value = some (Term.tuple op)) :
    Merge rt ind none value new_value
      = encode_result rt (dispatch rt none true ind.existing_term op []) := by
  simp [Merge, hdec, string_clear, merge_tuple, enif_get_tuple, resolve_baseline]

/-- C3. For an update that is the operation tuple of a kind `k` and a baseline that is
present, `Merge` returns false (a) when the baseline bytes do not decode and `k` is none of
BinaryAppend, BinaryReplace, BinaryInsert, BinaryErase, and (b) when the baseline decodes
to a term that is not of the variant of `k`: not an integer for IntAdd, not a list for
the list kinds, not a binary for the binary kinds. -/
theorem merge_fails_on_incompatible_baseline (rt : Runtime) (ind : Indeterminate)
    (ev value new_value : Bytes) (k : Kind) (op : List Term)
    (hdec : rt.enif_binary_to_term value = some (Term.tuple op))
    (hop : is_operation k op = true)
    (hbase : (rt.enif_binary_to_term ev = none ∧ k.raw_path = false)
      ∨ ∃ t, rt.enif_binary_to_term ev = some t ∧ has_variant k.variant t = false) :
    Merge rt ind (some ev) value new_value = Outcome.returned false [] := by
  obtain ⟨args, rfl, hlen⟩ := is_operation_shape hop
  rcases hbase with ⟨hev, hraw⟩ | ⟨t, hev, hvar⟩
  · cases k <;> simp [Kind.raw_path] at hraw <;>
      simp [Merge, hdec, string_clear, merge_tuple, enif_get_tuple, resolve_baseline, hev,
        op_0, is_atom, Kind.tag, ATOM_MERGE_BINARY_APPEND, ATOM_MERGE_BINARY_REPLACE,
        ATOM_MERGE_BINARY_INSERT, ATOM_MERGE_BINARY_ERASE, ATOM_MERGE_INT_ADD,
        ATOM_MERGE_LIST_APPEND, ATOM_MERGE_LIST_SUBSTRACT, ATOM_MERGE_LIST_DELETE,
        ATOM_MERGE_LIST_SET, ATOM_MERGE_LIST_INSERT, on_error, encode_result]
  · rw [merge_structured rt ind ev value new_value _ t hdec hev]
    cases k
    case IntAdd =>
      obtain ⟨a, rfl⟩ := List.length_eq_one.mp (by simpa [Kind.arity] using hlen)
      simp [dispatch, is_atom, Kind.tag, merge_int_add,
        get_int64_of_not_integer hvar, on_error, encode_result]
    case ListAppend =>
      obtain ⟨a, rfl⟩ := List.length_eq_one.mp (by simpa [Kind.arity] using hlen)
      simp [dispatch, is_atom, Kind.tag, ATOM_MERGE_INT_ADD, ATOM_MERGE_LIST_APPEND,
        merge_list_append, is_list_of_not_list hvar, on_error, encode_result]
    case ListSubtract =>
      obtain ⟨a, rfl⟩ := List.length_eq_one.mp (by simpa [Kind.arity] using hlen)
      simp [dispatch, is_atom, Kind.tag, ATOM_MERGE_INT_ADD, ATOM_MERGE_LIST_APPEND,
        ATOM_MERGE_LIST_SUBSTRACT, merge_list_substract, is_list_of_not_list hvar,
        on_error, encode_result]
    case ListDelete =>
      obtain ⟨a, rfl⟩ := List.length_eq_one.mp (by simpa [Kind.arity] using hlen)
      cases ha : enif_get_uint a <;>
        simp [dispatch, is_atom, Kind.tag, ATOM_MERGE_INT_ADD, ATOM_MERGE_LIST_APPEND,
          ATOM_MERGE_LIST_SUBSTRACT, ATOM_MERGE_LIST_DELETE, merge_list_delete, ha,
          list_length_of_not_list hvar, on_error, encode_result]
    case BinaryAppend =>
      obtain ⟨a, rfl⟩ := List.length_eq_one.mp (by simpa [Kind.arity] using hlen)
      cases ha : enif_inspect_binary a <;>
        simp [dispatch, is_atom, Kind.tag, ATOM_MERGE_INT_ADD, ATOM_MERGE_LIST_APPEND,
          ATOM_MERGE_LIST_SUBSTRACT, ATOM_MERGE_LIST_DELETE, ATOM_MERGE_BINARY_APPEND,
          merge_binary_append, ha, inspect_binary_of_not_binary hvar, on_error,
          encode_result]
    case ListSet =>
      obtain ⟨a, b, rfl⟩ := List.length_eq_two.mp (by simpa [Kind.arity] using hlen)
      cases ha : enif_get_uint a <;>
        simp [dispatch, is_atom, Kind.tag, ATOM_MERGE_LIST_SET, merge_list_set, ha,
          list_length_of_not_list hvar, on_error, encode_result]
    case ListDeleteRange =>
      obtain ⟨a, b, rfl⟩ := List.length_eq_two.mp (by simpa [Kind.arity] using hlen)
      cases ha : enif_get_uint a <;> cases hb : enif_get_uint b <;>
        simp [dispatch, is_atom, Kind.tag, ATOM_MERGE_LIST_SET, ATOM_MERGE_LIST_DELETE,
          merge_list_delete_range, ha, hb, list_length_of_not_list hvar, on_error,
          encode_result]
    case ListInsert =>
      obtain ⟨a, b, rfl⟩ := List.length_eq_two.mp (by simpa [Kind.arity] using hlen)
      cases ha : enif_get_uint a <;> cases hb : enif_is_list b <;>
        simp [dispatch, is_atom, Kind.tag, ATOM_MERGE_LIST_SET, ATOM_MERGE_LIST_DELETE,
          ATOM_MERGE_LIST_INSERT, merge_list_insert, ha, hb,
          list_length_of_not_list hvar, on_error, encode_result]
    case BinaryErase =>
      obtain ⟨a, b, rfl⟩ := List.length_eq_two.mp (by simpa [Kind.arity] using hlen)
      cases ha : enif_get_uint a <;> cases hb : enif_get_uint b <;>
        simp [dispatch, is_atom, Kind.tag, ATOM_MERGE_LIST_SET, ATOM_MERGE_LIST_DELETE,
          ATOM_MERGE_LIST_INSERT, ATOM_MERGE_BINARY_ERASE, merge_binary_erase, ha, hb,
          inspect_binary_of_not_binary hvar, on_error, encode_result]
    case BinaryInsert =>
      obtain ⟨a, b, rfl⟩ := List.length_eq_two.mp (by simpa [Kind.arity] using hlen)
      cases ha : enif_get_uint a <;> cases hb : enif_inspect_binary b <;>
        simp [dispatch, is_atom, Kind.tag, ATOM_MERGE_LIST_SET, ATOM_MERGE_LIST_DELETE,
          ATOM_MERGE_LIST_INSERT, ATOM_MERGE_BINARY_ERASE, ATOM_MERGE_BINARY_INSERT,
          merge_binary_insert, ha, hb, inspect_binary_of_not_binary hvar, on_error,
          encode_result]
    case BinaryReplace =>
      obtain ⟨a, b, c, rfl⟩ := List.length_eq_three.mp (by simpa [Kind.arity] using hlen)
      cases ha : enif_get_uint a <;> cases hb : enif_get_uint b <;>
        cases hc : enif_inspect_binary c <;>
        simp [dispatch, is_atom, Kind.tag, merge_binary_replace, ha, hb, hc,
          inspect_binary_of_not_binary hvar, on_error, encode_result]

/-- Witness of `merge_fails_on_incompatible_baseline`: `{int_add, 7}` against a baseline
that is the encoding of the list `[1, 2, 3]`. -/
theorem merge_fails_on_incompatible_baseline_witness :
    etf.enif_binary_to_term [131, 104, 2, 119, 7, 105, 110, 116, 95, 97, 100, 100, 97, 7]
        = some (Term.tuple [Term.atom "int_add", Term.int 7])
      ∧ is_operation Kind.IntAdd [Term.atom "int_add", Term.int 7] = true
      ∧ has_variant Kind.IntAdd.variant
          (make_list_from_queue [Term.int 1, Term.int 2, Term.int 3]) = false
      ∧ Merge etf junk (some [131, 107, 0, 3, 1, 2, 3])
          [131, 104, 2, 119, 7, 105, 110, 116, 95, 97, 100, 100, 97, 7] []
          = Outcome.returned false [] :=
  ⟨rfl, rfl, rfl,
   merge_fails_on_incompatible_baseline etf junk [131, 107, 0, 3, 1, 2, 3]
     [131, 104, 2, 119, 7, 105, 110, 116, 95, 97, 100, 100, 97, 7] [] Kind.IntAdd
     [Term.atom "int_add", Term.int 7] rfl rfl
     (Or.inr ⟨make_list_from_queue [Term.int 1, Term.int 2, Term.int 3], rfl, rfl⟩)⟩

/-- C4. With no baseline, every BinaryErase, BinaryInsert and BinaryReplace operation
tuple, whatever its arguments are, makes `Merge` return false. -/
theorem merge_binary_positional_needs_baseline (rt : Runtime) (ind : Indeterminate)
    (value new_value : Bytes) (k : Kind) (op : List Term)
    (hk : k = Kind.BinaryErase ∨ k = Kind.BinaryInsert ∨ k = Kind.BinaryReplace)
    (hdec : rt.enif_binary_to_term value = some (Term.tuple op))
    (hop : is_operation k op = true) :
    Merge rt ind none value new_value = Outcome.returned false [] := by
  obtain ⟨args, rfl, hlen⟩ := is_operation_shape hop
  rw [merge_absent rt ind value new_value _ hdec]
  rcases hk with rfl | rfl | rfl
  · obtain ⟨a, b, rfl⟩ := List.length_eq_two.mp (by simpa [Kind.arity] using hlen)
    cases ha : enif_get_uint a <;> cases hb : enif_get_uint b <;>
      simp [dispatch, is_atom, Kind.tag, ATOM_MERGE_LIST_SET, ATOM_MERGE_LIST_DELETE,
        ATOM_MERGE_LIST_INSERT, ATOM_MERGE_BINARY_ERASE, merge_binary_erase, ha, hb,
        on_error, encode_result]
  · obtain ⟨a, b, rfl⟩ := List.length_eq_two.mp (by simpa [Kind.arity] using hlen)
    cases ha : enif_get_uint a <;> cases hb : enif_inspect_binary b <;>
      simp [dispatch, is_atom, Kind.tag, ATOM_MERGE_LIST_SET, ATOM_MERGE_LIST_DELETE,
        ATOM_MERGE_LIST_INSERT, ATOM_MERGE_BINARY_ERASE, ATOM_MERGE_BINARY_INSERT,
        merge_binary_insert, ha, hb, on_error, encode_result]
  · obtain ⟨a, b, c, rfl⟩ := List.length_eq_three.mp (by simpa [Kind.arity] using hlen)
    cases ha : enif_get_uint a <;> cases hb : enif_get_uint b <;>
      simp [dispatch, is_atom, Kind.tag, merge_binary_replace, ha, hb, on_error,
        encode_result]

/-- Witness of `merge_binary_positional_needs_baseline`: `{binary_erase, 0, 1}` with no
baseline. -/
theorem merge_binary_positional_needs_baseline_witness :
    etf.enif_binary_to_term
        [131, 104, 3, 119, 12, 98, 105, 110, 97, 114, 121, 95, 101, 114, 97, 115, 101, 97, 0, 97, 1]
        = some (Term.tuple [Term.atom "binary_erase", Term.int 0, Term.int 1])
      ∧ is_operation Kind.BinaryErase [Term.atom "binary_erase", Term.int 0, Term.int 1] = true
      ∧ Merge etf junk none
          [131, 104, 3, 119, 12, 98, 105, 110, 97, 114, 121, 95, 101, 114, 97, 115, 101, 97, 0, 97, 1]
          [] = Outcome.returned false [] :=
  ⟨rfl, rfl,
   merge_binary_positional_needs_baseline etf junk
     [131, 104, 3, 119, 12, 98, 105, 110, 97, 114, 121, 95, 101, 114, 97, 115, 101, 97, 0, 97, 1]
     [] Kind.BinaryErase [Term.atom "binary_erase", Term.int 0, Term.int 1]
     (Or.inl rfl) rfl rfl⟩

/-! ## The binary handlers -/

theorem get_uint_natCast (n : Nat) (h : n < 2 ^ 32) : enif_get_uint (Term.int n) = some n := by
  have h1 : (0 : Int) ≤ (n : Int) := Int.natCast_nonneg n
  have h2 : (n : Int) < (2 : Int) ^ 32 := by exact_mod_cast h
  simp only [enif_get_uint, h1, h2, and_self, if_true, Int.toNat_ofNat]

/-- C5 (the code at a failing input). The raw baseline `abc` with `{binary_erase, 1,
4294967295}`: `pos + count` is `2 ^ 32`, more than the three bytes there are, yet the sum
computed in `unsigned int` is 0, the bound check passes, and `Merge` returns true with
the single byte `a`. With `{binary_erase, 4294967295, 2}` the check passes as well
(the sum is 1) and `erase` throws `std::out_of_range`. -/
theorem merge_binary_erase_overflow :
    etf.enif_binary_to_term [97, 98, 99] = none
    ∧ etf.enif_binary_to_term
        [131, 104, 3, 119, 12, 98, 105, 110, 97, 114, 121, 95, 101, 114, 97, 115, 101,
          97, 1, 110, 4, 0, 255, 255, 255, 255]
        = some (Term.tuple [Term.atom "binary_erase", Term.int 1, Term.int 4294967295])
    ∧ ([97, 98, 99] : Bytes).length < 1 + 4294967295
    ∧ Merge etf junk (some [97, 98, 99])
        [131, 104, 3, 119, 12, 98, 105, 110, 97, 114, 121, 95, 101, 114, 97, 115, 101,
          97, 1, 110, 4, 0, 255, 255, 255, 255] []
        = Outcome.returned true [97]
    ∧ Merge etf junk (some [97, 98, 99])
        [131, 104, 3, 119, 12, 98, 105, 110, 97, 114, 121, 95, 101, 114, 97, 115, 101,
          110, 4, 0, 255, 255, 255, 255, 97, 2] []
        = Outcome.out_of_range [97, 98, 99] :=
  ⟨rfl, rfl, by decide, rfl, rfl⟩

/-! ### Dispatch of each operation tuple -/

theorem dispatch_int_add (rt : Runtime) (ev : Option Bytes) (se : Bool) (t a : Term)
    (nv : Bytes) :
    dispatch rt ev se t [Term.atom ATOM_MERGE_INT_ADD, a] nv = merge_int_add ev t a nv := by
  simp [dispatch, is_atom]

theorem dispatch_list_append (rt : Runtime) (ev : Option Bytes) (se : Bool) (t a : Term)
    (nv : Bytes) :
    dispatch rt ev se t [Term.atom ATOM_MERGE_LIST_APPEND, a] nv
      = merge_list_append ev t a nv := by
  simp [dispatch, is_atom, ATOM_MERGE_INT_ADD, ATOM_MERGE_LIST_APPEND]

theorem dispatch_list_substract (rt : Runtime) (ev : Option Bytes) (se : Bool) (t a : Term)
    (nv : Bytes) :
    dispatch rt ev se t [Term.atom ATOM_MERGE_LIST_SUBSTRACT, a] nv
      = merge_list_substract rt ev t a nv := by
  simp [dispatch, is_atom, ATOM_MERGE_INT_ADD, ATOM_MERGE_LIST_APPEND,
    ATOM_MERGE_LIST_SUBSTRACT]

theorem dispatch_list_delete (rt : Runtime) (ev : Option Bytes) (se : Bool) (t a : Term)
    (nv : Bytes) :
    dispatch rt ev se t [Term.atom ATOM_MERGE_LIST_DELETE, a] nv
      = merge_list_delete t a nv := by
  simp [dispatch, is_atom, ATOM_MERGE_INT_ADD, ATOM_MERGE_LIST_APPEND,
    ATOM_MERGE_LIST_SUBSTRACT, ATOM_MERGE_LIST_DELETE]

theorem dispatch_binary_append (rt : Runtime) (ev : Option Bytes) (se : Bool) (t a : Term)
    (nv : Bytes) :
    dispatch rt ev se t [Term.atom ATOM_MERGE_BINARY_APPEND, a] nv
      = merge_binary_append ev se t a nv := by
  simp [dispatch, is_atom, ATOM_MERGE_INT_ADD, ATOM_MERGE_LIST_APPEND,
    ATOM_MERGE_LIST_SUBSTRACT, ATOM_MERGE_LIST_DELETE, ATOM_MERGE_BINARY_APPEND]

theorem dispatch_list_set (rt : Runtime) (ev : Option Bytes) (se : Bool) (t a b : Term)
    (nv : Bytes) :
    dispatch rt ev se t [Term.atom ATOM_MERGE_LIST_SET, a, b] nv
      = merge_list_set t a b nv := by
  simp [dispatch, is_atom]

theorem dispatch_list_delete_range (rt : Runtime) (ev : Option Bytes) (se : Bool)
    (t a b : Term) (nv : Bytes) :
    dispatch rt ev se t [Term.atom ATOM_MERGE_LIST_DELETE, a, b] nv
      = merge_list_delete_range t a b nv := by
  simp [dispatch, is_atom, ATOM_MERGE_LIST_SET, ATOM_MERGE_LIST_DELETE]

theorem dispatch_list_insert (rt : Runtime) (ev : Option Bytes) (se : Bool) (t a b : Term)
    (nv : Bytes) :
    dispatch rt ev se t [Term.atom ATOM_MERGE_LIST_INSERT, a, b] nv
      = merge_list_insert t a b nv := by
  simp [dispatch, is_atom, ATOM_MERGE_LIST_SET, ATOM_MERGE_LIST_DELETE,
    ATOM_MERGE_LIST_INSERT]

theorem dispatch_binary_erase (rt : Runtime) (ev : Option Bytes) (se : Bool) (t a b : Term)
    (nv : Bytes) :
    dispatch rt ev se t [Term.atom ATOM_MERGE_BINARY_ERASE, a, b] nv
      = merge_binary_erase ev se t a b nv := by
  simp [dispatch, is_atom, ATOM_MERGE_LIST_SET, ATOM_MERGE_LIST_DELETE,
    ATOM_MERGE_LIST_INSERT, ATOM_MERGE_BINARY_ERASE]

theorem dispatch_binary_insert (rt : Runtime) (ev : Option Bytes) (se : Bool) (t a b : Term)
    (nv : Bytes) :
    dispatch rt ev se t [Term.atom ATOM_MERGE_BINARY_INSERT, a, b] nv
      = merge_binary_insert ev se t a b nv := by
  simp [dispatch, is_atom, ATOM_MERGE_LIST_SET, ATOM_MERGE_LIST_DELETE,
    ATOM_MERGE_LIST_INSERT, ATOM_MERGE_BINARY_ERASE, ATOM_MERGE_BINARY_INSERT]

theorem dispatch_binary_replace (rt : Runtime) (ev : Option Bytes) (se : Bool)
    (t a b c : Term) (nv : Bytes) :
    dispatch rt ev se t [Term.atom ATOM_MERGE_BINARY_REPLACE, a, b, c] nv
      = merge_binary_replace ev se t a b c nv := by
  simp [dispatch, is_atom]

/-- `Merge` on a binary operation tuple with a baseline that does not decode: the tuple
is dispatched with `should_encode = false`. -/
theorem merge_raw_path (rt : Runtime) (ind : Indeterminate) (ev value new_value : Bytes)
    (tag : String) (args : List Term) (htag : is_raw_path_tag (Term.atom tag) = true)
    (hdec : rt.enif_binary_to_term value = some (Term.tuple (Term.atom tag :: args)))
    (hev : rt.enif_binary_to_term ev = none) :
    Merge rt ind (some ev) value new_value
      = encode_result rt
          (dispatch rt (some ev) false ind.existing_term (Term.atom tag :: args) []) := by
  simp only [is_raw_path_tag, Bool.or_eq_true] at htag
  have hgate : (!is_atom (Term.atom tag) ATOM_MERGE_BINARY_APPEND
      && !is_atom (Term.atom tag) ATOM_MERGE_BINARY_REPLACE
      && !is_atom (Term.atom tag) ATOM_MERGE_BINARY_INSERT
      && !is_atom (Term.atom tag) ATOM_MERGE_BINARY_ERASE) = false := by
    rcases htag with ((h | h) | h) | h <;> simp [h]
  simp only [Merge, hdec, string_clear, merge_tuple, enif_get_tuple, resolve_baseline, hev,
    op_0, hgate]
  rfl

/-! ### BinaryErase -/

theorem merge_binary_erase_raw (ev : Bytes) (t a b : Term) (pos count : Nat)
    (hp : enif_get_uint a = some pos) (hc : enif_get_uint b = some count)
    (hsum : pos + count < 2 ^ 32) :
    merge_binary_erase (some ev) false t a b [] =
      if pos + count > ev.length then Flow.on_error []
      else Flow.fallthrough none (ev.take pos ++ ev.drop (pos + count)) := by
  have hadd : uint_add pos count = pos + count := Nat.mod_eq_of_lt hsum
  by_cases hgt : pos + count > ev.length
  · simp [merge_binary_erase, hp, hc, hadd, hgt, on_error]
  · have h1 : ¬ ev.length < pos := by omega
    have h2 : min count (ev.length - pos) = count := by omega
    simp [merge_binary_erase, hp, hc, hadd, hgt, h1, h2, string_erase]

theorem merge_binary_erase_structured (ev bin : Bytes) (t a b : Term) (pos count : Nat)
    (hp : enif_get_uint a = some pos) (hc : enif_get_uint b = some count)
    (hsum : pos + count < 2 ^ 32) (ht : enif_inspect_binary t = some bin) :
    merge_binary_erase (some ev) true t a b [] =
      if pos + count > bin.length then Flow.on_error []
      else Flow.fallthrough (some (Term.binary (bin.take pos ++ bin.drop (pos + count)))) [] := by
  have hadd : uint_add pos count = pos + count := Nat.mod_eq_of_lt hsum
  by_cases hgt : pos + count > bin.length
  · simp [merge_binary_erase, hp, hc, hadd, hgt, ht, on_error]
  · have h1 : ¬ bin.length < pos := by omega
    have h2 : min count (bin.length - pos) = count := by omega
    simp [merge_binary_erase, hp, hc, hadd, hgt, h1, h2, ht, string_erase,
      enif_make_new_binary]

/-- BinaryErase where `pos + count` fits `unsigned int`: on a raw baseline `b` the call
fails when `pos + count > length(b)` and otherwise yields `b` without the `count` bytes
from offset `pos` on; on a baseline that decodes to the binary `b` likewise, the result
being encoded. -/
theorem merge_binary_erase_in_range (rt : Runtime) (ind : Indeterminate)
    (ev value new_value : Bytes) (pos count : Nat) (hsum : pos + count < 2 ^ 32)
    (hdec : rt.enif_binary_to_term value
      = some (Term.tuple [Term.atom ATOM_MERGE_BINARY_ERASE, Term.int pos, Term.int count])) :
    (rt.enif_binary_to_term ev = none →
      Merge rt ind (some ev) value new_value =
        if pos + count > ev.length then Outcome.returned false []
        else Outcome.returned true (ev.take pos ++ ev.drop (pos + count)))
    ∧ (∀ b e, rt.enif_binary_to_term ev = some (Term.binary b) →
        rt.enif_term_to_binary (Term.binary (b.take pos ++ b.drop (pos + count))) = some e →
        Merge rt ind (some ev) value new_value =
          if pos + count > b.length then Outcome.returned false []
          else Outcome.returned true e) := by
  have hp := get_uint_natCast pos (by omega)
  have hc := get_uint_natCast count (by omega)
  constructor
  · intro hev
    rw [merge_raw_path rt ind ev value new_value ATOM_MERGE_BINARY_ERASE _ rfl hdec hev,
      dispatch_binary_erase, merge_binary_erase_raw ev _ _ _ pos count hp hc hsum]
    split_ifs <;> rfl
  · intro b e hev henc
    rw [merge_structured rt ind ev value new_value _ _ hdec hev, dispatch_binary_erase,
      merge_binary_erase_structured ev b (Term.binary b) _ _ pos count hp hc hsum rfl]
    split_ifs
    · rfl
    · simp only [encode_result, henc]

/-! ### BinaryReplace -/

/-- C6 (the code at a failing input). The baseline is the encoding of the binary `hello`
and the update is `{binary_replace, 1, 4294967295, <<"X">>}`: `pos + count` is `2 ^ 32`,
more than the five bytes there are, yet the sum computed in `unsigned int` is 0, the
bound check passes, and `Merge` returns true with the encoding of the binary `hX`. With
`{binary_replace, 4294967295, 2, <<"X">>}` the check passes as well and `replace` throws
`std::out_of_range`. -/
theorem merge_binary_replace_overflow :
    etf.enif_binary_to_term [131, 109, 0, 0, 0, 5, 104, 101, 108, 108, 111]
      = some (Term.binary [104, 101, 108, 108, 111])
    ∧ etf.enif_binary_to_term
        [131, 104, 4, 119, 14, 98, 105, 110, 97, 114, 121, 95, 114, 101, 112, 108, 97, 99,
          101, 97, 1, 110, 4, 0, 255, 255, 255, 255, 109, 0, 0, 0, 1, 88]
        = some (Term.tuple [Term.atom "binary_replace", Term.int 1, Term.int 4294967295,
            Term.binary [88]])
    ∧ ([104, 101, 108, 108, 111] : Bytes).length < 1 + 4294967295
    ∧ Merge etf junk (some [131, 109, 0, 0, 0, 5, 104, 101, 108, 108, 111])
        [131, 104, 4, 119, 14, 98, 105, 110, 97, 114, 121, 95, 114, 101, 112, 108, 97, 99,
          101, 97, 1, 110, 4, 0, 255, 255, 255, 255, 109, 0, 0, 0, 1, 88] []
        = Outcome.returned true [131, 109, 0, 0, 0, 2, 104, 88]
    ∧ Merge etf junk (some [131, 109, 0, 0, 0, 5, 104, 101, 108, 108, 111])
        [131, 104, 4, 119, 14, 98, 105, 110, 97, 114, 121, 95, 114, 101, 112, 108, 97, 99,
          101, 110, 4, 0, 255, 255, 255, 255, 97, 2, 109, 0, 0, 0, 1, 88] []
        = Outcome.out_of_range [] :=
  ⟨rfl, rfl, by decide, rfl, rfl⟩

theorem merge_binary_replace_raw (ev r : Bytes) (t a b c : Term) (pos count : Nat)
    (hp : enif_get_uint a = some pos) (hc : enif_get_uint b = some count)
    (hr : enif_inspect_binary c = some r) (hsum : pos + count < 2 ^ 32) :
    merge_binary_replace (some ev) false t a b c [] =
      if pos + count > ev.length then Flow.on_error []
      else Flow.fallthrough none (ev.take pos ++ r ++ ev.drop (pos + count)) := by
  have hadd : uint_add pos count = pos + count := Nat.mod_eq_of_lt hsum
  by_cases hgt : pos + count > ev.length
  · simp [merge_binary_replace, hp, hc, hr, hadd, hgt, on_error]
  · have h1 : ¬ ev.length < pos := by omega
    have h2 : min count (ev.length - pos) = count := by omega
    simp [merge_binary_replace, hp, hc, hr, hadd, hgt, h1, h2, string_replace]

theorem merge_binary_replace_structured (ev bin r : Bytes) (t a b c : Term)
    (pos count : Nat) (hp : enif_get_uint a = some pos) (hc : enif_get_uint b = some count)
    (hr : enif_inspect_binary c = some r) (hsum : pos + count < 2 ^ 32)
    (ht : enif_inspect_binary t = some bin) :
    merge_binary_replace (some ev) true t a b c [] =
      if pos + count > bin.length then Flow.on_error []
      else Flow.fallthrough
        (some (Term.binary (bin.take pos ++ r ++ bin.drop (pos + count)))) [] := by
  have hadd : uint_add pos count = pos + count := Nat.mod_eq_of_lt hsum
  by_cases hgt : pos + count > bin.length
  · simp [merge_binary_replace, hp, hc, hr, hadd, hgt, ht, on_error]
  · have h1 : ¬ bin.length < pos := by omega
    have h2 : min count (bin.length - pos) = count := by omega
    simp [merge_binary_replace, hp, hc, hr, hadd, hgt, h1, h2, ht, string_replace,
      enif_make_new_binary]

/-- BinaryReplace where `pos + count` fits `unsigned int`: the call fails when
`pos + count` exceeds the length of the existing bytes `b` and otherwise yields the first
`pos` bytes of `b`, then `r`, then the bytes of `b` from offset `pos + count` on (raw
bytes for a raw baseline, the encoding of that binary for a decoded one). -/
theorem merge_binary_replace_in_range (rt : Runtime) (ind : Indeterminate)
    (ev value new_value r : Bytes) (pos count : Nat) (hsum : pos + count < 2 ^ 32)
    (hdec : rt.enif_binary_to_term value
      = some (Term.tuple [Term.atom ATOM_MERGE_BINARY_REPLACE, Term.int pos, Term.int count,
          Term.binary r])) :
    (rt.enif_binary_to_term ev = none →
      Merge rt ind (some ev) value new_value =
        if pos + count > ev.length then Outcome.returned false []
        else Outcome.returned true (ev.take pos ++ r ++ ev.drop (pos + count)))
    ∧ (∀ b e, rt.enif_binary_to_term ev = some (Term.binary b) →
        rt.enif_term_to_binary (Term.binary (b.take pos ++ r ++ b.drop (pos + count)))
          = some e →
        Merge rt ind (some ev) value new_value =
          if pos + count > b.length then Outcome.returned false []
          else Outcome.returned true e) := by
  have hp := get_uint_natCast pos (by omega)
  have hc := get_uint_natCast count (by omega)
  constructor
  · intro hev
    rw [merge_raw_path rt ind ev value new_value ATOM_MERGE_BINARY_REPLACE _ rfl hdec hev,
      dispatch_binary_replace,
      merge_binary_replace_raw ev r _ _ _ (Term.binary r) pos count hp hc rfl hsum]
    split_ifs <;> rfl
  · intro b e hev henc
    rw [merge_structured rt ind ev value new_value _ _ hdec hev, dispatch_binary_replace,
      merge_binary_replace_structured ev b r (Term.binary b) _ _ (Term.binary r) pos count hp hc rfl hsum
        rfl]
    split_ifs
    · rfl
    · simp only [encode_result, henc]

/-- The scenario of the specification: the binary `hello` with BinaryReplace(1, 3, `ELL`)
gives the binary `hELLo`. -/
theorem merge_binary_replace_hello :
    Merge etf junk (some [131, 109, 0, 0, 0, 5, 104, 101, 108, 108, 111])
      [131, 104, 4, 119, 14, 98, 105, 110, 97, 114, 121, 95, 114, 101, 112, 108, 97, 99,
        101, 97, 1, 97, 3, 109, 0, 0, 0, 3, 69, 76, 76] []
      = Outcome.returned true [131, 109, 0, 0, 0, 5, 104, 69, 76, 76, 111] :=
  rfl

/-! ### BinaryInsert -/

theorem merge_binary_insert_raw (ev chunk : Bytes) (t a b : Term) (pos : Nat)
    (hp : enif_get_uint a = some pos) (hb : enif_inspect_binary b = some chunk) :
    merge_binary_insert (some ev) false t a b [] =
      if pos > ev.length then Flow.on_error []
      else Flow.fallthrough none (ev.take pos ++ chunk ++ ev.drop pos) := by
  by_cases hgt : pos > ev.length
  · simp [merge_binary_insert, hp, hb, hgt, on_error]
  · simp [merge_binary_insert, hp, hb, hgt, string_insert]

theorem merge_binary_insert_structured (ev bin chunk : Bytes) (t a b : Term) (pos : Nat)
    (hp : enif_get_uint a = some pos) (hb : enif_inspect_binary b = some chunk)
    (ht : enif_inspect_binary t = some bin) :
    merge_binary_insert (some ev) true t a b [] =
      if pos > bin.length then Flow.on_error []
      else Flow.fallthrough (some (Term.binary (bin.take pos ++ chunk ++ bin.drop pos))) [] := by
  by_cases hgt : pos > bin.length
  · simp [merge_binary_insert, hp, hb, ht, hgt, on_error]
  · simp [merge_binary_insert, hp, hb, ht, hgt, string_insert, enif_make_new_binary]

/-- C7. BinaryInsert(pos, c) with `pos` an `unsigned int`. On a raw baseline `b` (bytes
that do not decode) `Merge` fails exactly when `pos > length(b)` and otherwise returns,
verbatim, the first `pos` bytes of `b`, then `c`, then the rest of `b`; so for
`pos = length(b)` the output is `b ++ c`. On a baseline that decodes to the binary `b`
it fails exactly when `pos > length(b)` and otherwise returns the encoding of the binary
with that content. -/
theorem merge_binary_insert_spec (rt : Runtime) (ind : Indeterminate)
    (ev value new_value c : Bytes) (pos : Nat) (hpos : pos < 2 ^ 32)
    (hdec : rt.enif_binary_to_term value
      = some (Term.tuple [Term.atom ATOM_MERGE_BINARY_INSERT, Term.int pos, Term.binary c])) :
    (rt.enif_binary_to_term ev = none →
      Merge rt ind (some ev) value new_value =
          (if pos > ev.length then Outcome.returned false []
           else Outcome.returned true (ev.take pos ++ c ++ ev.drop pos))
        ∧ (pos = ev.length →
            Merge rt ind (some ev) value new_value = Outcome.returned true (ev ++ c)))
    ∧ (∀ b e, rt.enif_binary_to_term ev = some (Term.binary b) →
        rt.enif_term_to_binary (Term.binary (b.take pos ++ c ++ b.drop pos)) = some e →
        Merge rt ind (some ev) value new_value =
          if pos > b.length then Outcome.returned false []
          else Outcome.returned true e) := by
  have hp := get_uint_natCast pos hpos
  constructor
  · intro hev
    have hm : Merge rt ind (some ev) value new_value =
        (if pos > ev.length then Outcome.returned false []
         else Outcome.returned true (ev.take pos ++ c ++ ev.drop pos)) := by
      rw [merge_raw_path rt ind ev value new_value ATOM_MERGE_BINARY_INSERT _ rfl hdec hev,
        dispatch_binary_insert, merge_binary_insert_raw ev c _ _ (Term.binary c) pos hp rfl]
      split_ifs <;> rfl
    refine ⟨hm, ?_⟩
    intro hlen
    rw [hm, hlen]
    simp
  · intro b e hev henc
    rw [merge_structured rt ind ev value new_value _ _ hdec hev, dispatch_binary_insert,
      merge_binary_insert_structured ev b c (Term.binary b) _ (Term.binary c) pos hp rfl rfl]
    split_ifs
    · rfl
    · simp only [encode_result, henc]

/-- Witness of `merge_binary_insert_spec`, the scenario of the specification: the raw
baseline `abc` with BinaryInsert(3, `def`) gives the raw bytes `abcdef`. -/
theorem merge_binary_insert_spec_witness :
    3 < 2 ^ 32
    ∧ etf.enif_binary_to_term
        [131, 104, 3, 119, 13, 98, 105, 110, 97, 114, 121, 95, 105, 110, 115, 101, 114, 116,
          97, 3, 109, 0, 0, 0, 3, 100, 101, 102]
        = some (Term.tuple [Term.atom ATOM_MERGE_BINARY_INSERT, Term.int (3 : Nat),
            Term.binary [100, 101, 102]])
    ∧ etf.enif_binary_to_term [97, 98, 99] = none
    ∧ Merge etf junk (some [97, 98, 99])
        [131, 104, 3, 119, 13, 98, 105, 110, 97, 114, 121, 95, 105, 110, 115, 101, 114, 116,
          97, 3, 109, 0, 0, 0, 3, 100, 101, 102] [] =
        Outcome.returned true [97, 98, 99, 100, 101, 102] :=
  ⟨by decide, rfl, rfl,
   ((merge_binary_insert_spec etf junk [97, 98, 99]
      [131, 104, 3, 119, 13, 98, 105, 110, 97, 114, 121, 95, 105, 110, 115, 101, 114, 116,
        97, 3, 109, 0, 0, 0, 3, 100, 101, 102] [] [100, 101, 102] 3 (by decide) rfl).1
      rfl).2 rfl⟩

/-! ### BinaryAppend -/

theorem merge_binary_append_absent (chunk : Bytes) (se : Bool) (t a : Term)
    (ha : enif_inspect_binary a = some chunk) :
    merge_binary_append none se t a [] = Flow.fallthrough none chunk := by
  simp [merge_binary_append, ha]

theorem merge_binary_append_raw (ev chunk : Bytes) (t a : Term)
    (ha : enif_inspect_binary a = some chunk) :
    merge_binary_append (some ev) false t a [] = Flow.fallthrough none (ev ++ chunk) := by
  simp [merge_binary_append, ha]

theorem merge_binary_append_structured (ev bin chunk : Bytes) (t a : Term)
    (ha : enif_inspect_binary a = some chunk) (ht : enif_inspect_binary t = some bin) :
    merge_binary_append (some ev) true t a []
      = Flow.fallthrough (some (Term.binary (bin ++ chunk))) [] := by
  simp [merge_binary_append, ha, ht, enif_make_new_binary]

/-- C8. BinaryAppend(chunk) appends in both modes: (1) on a baseline `b` that is raw
bytes (bytes that do not decode) the output is exactly the bytes `b ++ chunk`; (2) on the
baseline `encode(Binary(b))`, for an encoder and decoder that round-trip `Binary(b)`, the
output is `encode(Binary(b ++ chunk))`. -/
theorem merge_binary_append_modes (rt : Runtime) (ind : Indeterminate)
    (value new_value chunk : Bytes)
    (hdec : rt.enif_binary_to_term value
      = some (Term.tuple [Term.atom ATOM_MERGE_BINARY_APPEND, Term.binary chunk])) :
    (∀ b, rt.enif_binary_to_term b = none →
      Merge rt ind (some b) value new_value = Outcome.returned true (b ++ chunk))
    ∧ (∀ b eb e, rt.enif_term_to_binary (Term.binary b) = some eb →
        rt.enif_binary_to_term eb = some (Term.binary b) →
        rt.enif_term_to_binary (Term.binary (b ++ chunk)) = some e →
        Merge rt ind (some eb) value new_value = Outcome.returned true e) := by
  constructor
  · intro b hev
    rw [merge_raw_path rt ind b value new_value ATOM_MERGE_BINARY_APPEND _ rfl hdec hev,
      dispatch_binary_append, merge_binary_append_raw b chunk _ (Term.binary chunk) rfl]
    rfl
  · intro b eb e _ hev henc
    rw [merge_structured rt ind eb value new_value _ _ hdec hev, dispatch_binary_append,
      merge_binary_append_structured eb b chunk (Term.binary b) (Term.binary chunk) rfl rfl]
    simp only [encode_result, henc]

/-- Witness of `merge_binary_append_modes`: BinaryAppend(`def`) on the raw bytes `abc` and
on the encoding of the binary `abc`. -/
theorem merge_binary_append_modes_witness :
    etf.enif_binary_to_term
        [131, 104, 2, 119, 13, 98, 105, 110, 97, 114, 121, 95, 97, 112, 112, 101, 110, 100,
          109, 0, 0, 0, 3, 100, 101, 102]
        = some (Term.tuple [Term.atom ATOM_MERGE_BINARY_APPEND, Term.binary [100, 101, 102]])
    ∧ (etf.enif_binary_to_term [97, 98, 99] = none
      ∧ Merge etf junk (some [97, 98, 99])
          [131, 104, 2, 119, 13, 98, 105, 110, 97, 114, 121, 95, 97, 112, 112, 101, 110, 100,
            109, 0, 0, 0, 3, 100, 101, 102] []
          = Outcome.returned true [97, 98, 99, 100, 101, 102])
    ∧ (etf.enif_term_to_binary (Term.binary [97, 98, 99])
          = some [131, 109, 0, 0, 0, 3, 97, 98, 99]
      ∧ etf.enif_binary_to_term [131, 109, 0, 0, 0, 3, 97, 98, 99]
          = some (Term.binary [97, 98, 99])
      ∧ etf.enif_term_to_binary (Term.binary [97, 98, 99, 100, 101, 102])
          = some [131, 109, 0, 0, 0, 6, 97, 98, 99, 100, 101, 102]
      ∧ Merge etf junk (some [131, 109, 0, 0, 0, 3, 97, 98, 99])
          [131, 104, 2, 119, 13, 98, 105, 110, 97, 114, 121, 95, 97, 112, 112, 101, 110, 100,
            109, 0, 0, 0, 3, 100, 101, 102] []
          = Outcome.returned true [131, 109, 0, 0, 0, 6, 97, 98, 99, 100, 101, 102]) :=
  ⟨rfl,
   ⟨rfl,
    (merge_binary_append_modes etf junk
      [131, 104, 2, 119, 13, 98, 105, 110, 97, 114, 121, 95, 97, 112, 112, 101, 110, 100,
        109, 0, 0, 0, 3, 100, 101, 102] [] [100, 101, 102] rfl).1 [97, 98, 99] rfl⟩,
   ⟨rfl, rfl, rfl,
    (merge_binary_append_modes etf junk
      [131, 104, 2, 119, 13, 98, 105, 110, 97, 114, 121, 95, 97, 112, 112, 101, 110, 100,
        109, 0, 0, 0, 3, 100, 101, 102] [] [100, 101, 102] rfl).2 [97, 98, 99]
      [131, 109, 0, 0, 0, 3, 97, 98, 99] [131, 109, 0, 0, 0, 6, 97, 98, 99, 100, 101, 102]
      rfl rfl rfl⟩⟩

/-- C9. BinaryAppend(chunk) with no baseline succeeds and the output buffer holds exactly
the bytes of `chunk`: they are assigned to the buffer and the encoder is not called. -/
theorem merge_binary_append_without_baseline (rt : Runtime) (ind : Indeterminate)
    (value new_value chunk : Bytes)
    (hdec : rt.enif_binary_to_term value
      = some (Term.tuple [Term.atom ATOM_MERGE_BINARY_APPEND, Term.binary chunk])) :
    Merge rt ind none value new_value = Outcome.returned true chunk
    ∧ merge_tuple rt ind none
        (Term.tuple [Term.atom ATOM_MERGE_BINARY_APPEND, Term.binary chunk]) []
        = Flow.fallthrough none chunk := by
  have hflow : merge_tuple rt ind none
      (Term.tuple [Term.atom ATOM_MERGE_BINARY_APPEND, Term.binary chunk]) []
      = Flow.fallthrough none chunk := by
    simp only [merge_tuple, enif_get_tuple, resolve_baseline]
    rw [dispatch_binary_append, merge_binary_append_absent chunk _ _ (Term.binary chunk) rfl]
  refine ⟨?_, hflow⟩
  simp only [Merge, hdec, string_clear, hflow, encode_result]

/-- Witness of `merge_binary_append_without_baseline`: BinaryAppend(`def`) with no
baseline, the output buffer holding the byte 9 on entry. -/
theorem merge_binary_append_without_baseline_witness :
    etf.enif_binary_to_term
        [131, 104, 2, 119, 13, 98, 105, 110, 97, 114, 121, 95, 97, 112, 112, 101, 110, 100,
          109, 0, 0, 0, 3, 100, 101, 102]
        = some (Term.tuple [Term.atom ATOM_MERGE_BINARY_APPEND, Term.binary [100, 101, 102]])
    ∧ Merge etf junk none
        [131, 104, 2, 119, 13, 98, 105, 110, 97, 114, 121, 95, 97, 112, 112, 101, 110, 100,
          109, 0, 0, 0, 3, 100, 101, 102] [9]
        = Outcome.returned true [100, 101, 102] :=
  ⟨rfl,
   (merge_binary_append_without_baseline etf junk
      [131, 104, 2, 119, 13, 98, 105, 110, 97, 114, 121, 95, 97, 112, 112, 101, 110, 100,
        109, 0, 0, 0, 3, 100, 101, 102] [9] [100, 101, 102] rfl).1⟩

/-! ## The list handlers -/

theorem get_list_length_make_list (L : List Term) :
    enif_get_list_length (make_list_from_queue L) = some L.length := by
  induction L with
  | nil => rfl
  | cons x xs ih => simp [make_list_from_queue, enif_get_list_length, ih]

theorem push_back_cells_make_list (L : List Term) :
    push_back_cells (make_list_from_queue L) = L := by
  induction L with
  | nil => rfl
  | cons x xs ih => simp [make_list_from_queue, push_back_cells, ih]

theorem make_reverse_list_reverse (L : List Term) :
    enif_make_reverse_list (L.reverse ++ []) = make_list_from_queue L := by
  simp [enif_make_reverse_list]

/-! ### ListSet -/

theorem list_set_loop_make_list (pos : Nat) (v : Term) (L : List Term) :
    ∀ (i : Nat) (list_in : List Term),
      list_set_loop pos v (make_list_from_queue L) i list_in
        = (if pos < i then L else L.set (pos - i) v).reverse ++ list_in := by
  induction L with
  | nil => intro i list_in; simp [make_list_from_queue, list_set_loop]
  | cons x xs ih =>
    intro i list_in
    simp only [make_list_from_queue, list_set_loop, ih]
    by_cases h1 : pos < i
    · have h2 : pos < i + 1 := by omega
      have h3 : pos ≠ i := by omega
      simp [h1, h2, h3]
    · by_cases h4 : pos = i
      · subst h4
        simp
      · have h5 : ¬ pos < i + 1 := by omega
        obtain ⟨k, hk⟩ : ∃ k, pos - i = k + 1 := ⟨pos - i - 1, by omega⟩
        have h6 : pos - (i + 1) = k := by omega
        simp [h1, h4, h5, hk, h6]

theorem merge_list_set_make_list (L : List Term) (a v : Term) (pos : Nat)
    (hp : enif_get_uint a = some pos) :
    merge_list_set (make_list_from_queue L) a v [] =
      if pos ≥ L.length then Flow.on_error []
      else Flow.fallthrough (some (make_list_from_queue (L.set pos v))) [] := by
  have hloop := list_set_loop_make_list pos v L 0 []
  simp only [Nat.not_lt_zero, if_false, Nat.sub_zero] at hloop
  simp only [merge_list_set, hp, get_list_length_make_list, hloop, make_reverse_list_reverse,
    on_error]

/-- C10. On a baseline that decodes to the list `L`, ListSet(pos, v) with `pos` an
`unsigned int` fails for every `pos >= length(L)` (so also for `pos = length(L)`) and for
every `pos < length(L)` succeeds with the encoding of the list `L.set pos v`: the list of
the length of `L` that has `v` at index `pos` and the element of `L` at every other
index. -/
theorem merge_list_set_spec (rt : Runtime) (ind : Indeterminate)
    (ev value new_value : Bytes) (L : List Term) (v : Term) (pos : Nat)
    (hpos : pos < 2 ^ 32)
    (hdec : rt.enif_binary_to_term value
      = some (Term.tuple [Term.atom ATOM_MERGE_LIST_SET, Term.int pos, v]))
    (hev : rt.enif_binary_to_term ev = some (make_list_from_queue L)) :
    (L.length ≤ pos → Merge rt ind (some ev) value new_value = Outcome.returned false [])
    ∧ (pos < L.length → ∀ e,
        rt.enif_term_to_binary (make_list_from_queue (L.set pos v)) = some e →
        Merge rt ind (some ev) value new_value = Outcome.returned true e)
    ∧ (L.set pos v).length = L.length
    ∧ (pos < L.length → (L.set pos v)[pos]? = some v)
    ∧ (∀ j, j ≠ pos → (L.set pos v)[j]? = L[j]?) := by
  have hp := get_uint_natCast pos hpos
  have hm : Merge rt ind (some ev) value new_value
      = encode_result rt (if pos ≥ L.length then Flow.on_error []
          else Flow.fallthrough (some (make_list_from_queue (L.set pos v))) []) := by
    rw [merge_structured rt ind ev value new_value _ _ hdec hev, dispatch_list_set,
      merge_list_set_make_list L _ v pos hp]
  refine ⟨?_, ?_, ?_, ?_, ?_⟩
  · intro hge
    rw [hm, if_pos hge]
    rfl
  · intro hlt e henc
    rw [hm, if_neg (by omega)]
    simp only [encode_result, henc]
  · simp
  · intro hlt
    simp [hlt]
  · intro j hj
    simp [List.getElem?_set, Ne.symm hj]

/-- Witness of `merge_list_set_spec`: the list `[1, 2, 3]` with ListSet(1, 9) gives the
list `[1, 9, 3]`. -/
theorem merge_list_set_spec_witness :
    1 < 2 ^ 32
    ∧ etf.enif_binary_to_term
        [131, 104, 3, 119, 8, 108, 105, 115, 116, 95, 115, 101, 116, 97, 1, 97, 9]
        = some (Term.tuple [Term.atom ATOM_MERGE_LIST_SET, Term.int (1 : Nat), Term.int 9])
    ∧ etf.enif_binary_to_term [131, 107, 0, 3, 1, 2, 3]
        = some (make_list_from_queue [Term.int 1, Term.int 2, Term.int 3])
    ∧ 1 < [Term.int 1, Term.int 2, Term.int 3].length
    ∧ etf.enif_term_to_binary
        (make_list_from_queue ([Term.int 1, Term.int 2, Term.int 3].set 1 (Term.int 9)))
        = some [131, 107, 0, 3, 1, 9, 3]
    ∧ Merge etf junk (some [131, 107, 0, 3, 1, 2, 3])
        [131, 104, 3, 119, 8, 108, 105, 115, 116, 95, 115, 101, 116, 97, 1, 97, 9] []
        = Outcome.returned true [131, 107, 0, 3, 1, 9, 3] :=
  ⟨by decide, rfl, rfl, by decide, rfl,
   (merge_list_set_spec etf junk [131, 107, 0, 3, 1, 2, 3]
      [131, 104, 3, 119, 8, 108, 105, 115, 116, 95, 115, 101, 116, 97, 1, 97, 9] []
      [Term.int 1, Term.int 2, Term.int 3] (Term.int 9) 1 (by decide) rfl rfl).2.1
      (by decide) [131, 107, 0, 3, 1, 9, 3] rfl⟩

/-! ### ListDelete with one index -/

theorem list_delete_loop_make_list (pos : Nat) (L : List Term) :
    ∀ (i : Nat) (list_in : List Term),
      list_delete_loop pos (make_list_from_queue L) i list_in
        = (if pos < i then L else L.take (pos - i) ++ L.drop (pos - i + 1)).reverse
            ++ list_in := by
  induction L with
  | nil => intro i list_in; simp [make_list_from_queue, list_delete_loop]
  | cons x xs ih =>
    intro i list_in
    simp only [make_list_from_queue, list_delete_loop, ih]
    by_cases h1 : pos < i
    · have h2 : pos < i + 1 := by omega
      have h3 : pos ≠ i := by omega
      simp [h1, h2, h3]
    · by_cases h4 : pos = i
      · subst h4
        simp
      · have h5 : ¬ pos < i + 1 := by omega
        obtain ⟨k, hk⟩ : ∃ k, pos - i = k + 1 := ⟨pos - i - 1, by omega⟩
        have h6 : pos - (i + 1) = k := by omega
        simp [h1, h4, h5, hk, h6]

theorem merge_list_delete_make_list (L : List Term) (a : Term) (pos : Nat)
    (hp : enif_get_uint a = some pos) :
    merge_list_delete (make_list_from_queue L) a [] =
      if pos ≥ L.length then Flow.on_error []
      else Flow.fallthrough (some (make_list_from_queue (L.take pos ++ L.drop (pos + 1)))) [] := by
  have hloop := list_delete_loop_make_list pos L 0 []
  simp only [Nat.not_lt_zero, if_false, Nat.sub_zero] at hloop
  simp only [merge_list_delete, hp, get_list_length_make_list, hloop,
    make_reverse_list_reverse, on_error]

/-- C12. On a baseline that decodes to the list `L`, the 2-argument ListDelete(pos) with
`pos` an `unsigned int` fails exactly when `pos >= length(L)`; otherwise it succeeds with
the encoding of `L` without its element at index `pos`: the elements before index `pos`
followed by those after it, in their order, `length(L) - 1` elements. -/
theorem merge_list_delete_spec (rt : Runtime) (ind : Indeterminate)
    (ev value new_value : Bytes) (L : List Term) (pos : Nat) (hpos : pos < 2 ^ 32)
    (hdec : rt.enif_binary_to_term value
      = some (Term.tuple [Term.atom ATOM_MERGE_LIST_DELETE, Term.int pos]))
    (hev : rt.enif_binary_to_term ev = some (make_list_from_queue L)) :
    (L.length ≤ pos → Merge rt ind (some ev) value new_value = Outcome.returned false [])
    ∧ (pos < L.length → ∀ e,
        rt.enif_term_to_binary (make_list_from_queue (L.take pos ++ L.drop (pos + 1)))
          = some e →
        Merge rt ind (some ev) value new_value = Outcome.returned true e)
    ∧ (pos < L.length → (L.take pos ++ L.drop (pos + 1)).length = L.length - 1)
    ∧ (∀ j, j < pos → (L.take pos ++ L.drop (pos + 1))[j]? = L[j]?)
    ∧ (∀ j, pos ≤ j → (L.take pos ++ L.drop (pos + 1))[j]? = L[j + 1]?) := by
  have hp := get_uint_natCast pos hpos
  have hm : Merge rt ind (some ev) value new_value
      = encode_result rt (if pos ≥ L.length then Flow.on_error []
          else Flow.fallthrough
            (some (make_list_from_queue (L.take pos ++ L.drop (pos + 1)))) []) := by
    rw [merge_structured rt ind ev value new_value _ _ hdec hev, dispatch_list_delete,
      merge_list_delete_make_list L _ pos hp]
  refine ⟨?_, ?_, ?_, ?_, ?_⟩
  · intro hge
    rw [hm, if_pos hge]
    rfl
  · intro hlt e henc
    rw [hm, if_neg (by omega)]
    simp only [encode_result, henc]
  · intro hlt
    simp only [List.length_append, List.length_take, List.length_drop]
    omega
  · intro j hj
    by_cases hl : pos ≤ L.length
    · rw [List.getElem?_append_left (by simp; omega), List.getElem?_take_of_lt hj]
    · have h1 : L.take pos = L := List.take_of_length_le (by omega)
      have h2 : L.drop (pos + 1) = [] := List.drop_of_length_le (by omega)
      rw [h1, h2, List.append_nil]
  · intro j hj
    by_cases hl : pos ≤ L.length
    · rw [List.getElem?_append_right (by simp; omega)]
      simp only [List.length_take, List.getElem?_drop]
      have hidx : pos + 1 + (j - min pos L.length) = j + 1 := by omega
      rw [hidx]
    · have h2 : L.drop (pos + 1) = [] := List.drop_of_length_le (by omega)
      have h3 : L.length ≤ j := by omega
      rw [h2, List.append_nil, List.getElem?_eq_none (by simp; omega),
        List.getElem?_eq_none (by omega)]

/-- Witness of `merge_list_delete_spec`, the scenario of the specification: the list
`[1, 2, 3]` with ListDelete(1) gives the list `[1, 3]`. -/
theorem merge_list_delete_spec_witness :
    1 < 2 ^ 32
    ∧ etf.enif_binary_to_term
        [131, 104, 2, 119, 11, 108, 105, 115, 116, 95, 100, 101, 108, 101, 116, 101, 97, 1]
        = some (Term.tuple [Term.atom ATOM_MERGE_LIST_DELETE, Term.int (1 : Nat)])
    ∧ etf.enif_binary_to_term [131, 107, 0, 3, 1, 2, 3]
        = some (make_list_from_queue [Term.int 1, Term.int 2, Term.int 3])
    ∧ 1 < [Term.int 1, Term.int 2, Term.int 3].length
    ∧ etf.enif_term_to_binary (make_list_from_queue
          ([Term.int 1, Term.int 2, Term.int 3].take 1
            ++ [Term.int 1, Term.int 2, Term.int 3].drop (1 + 1)))
        = some [131, 107, 0, 2, 1, 3]
    ∧ Merge etf junk (some [131, 107, 0, 3, 1, 2, 3])
        [131, 104, 2, 119, 11, 108, 105, 115, 116, 95, 100, 101, 108, 101, 116, 101, 97, 1] []
        = Outcome.returned true [131, 107, 0, 2, 1, 3] :=
  ⟨by decide, rfl, rfl, by decide, rfl,
   (merge_list_delete_spec etf junk [131, 107, 0, 3, 1, 2, 3]
      [131, 104, 2, 119, 11, 108, 105, 115, 116, 95, 100, 101, 108, 101, 116, 101, 97, 1] []
      [Term.int 1, Term.int 2, Term.int 3] 1 (by decide) rfl rfl).2.1
      (by decide) [131, 107, 0, 2, 1, 3] rfl⟩

/-! ### ListDelete with an index range -/

theorem list_delete_range_loop_make_list (start end_ : Nat) (hse : start ≤ end_)
    (L : List Term) :
    ∀ (i : Nat) (list_in : List Term),
      list_delete_range_loop start end_ (make_list_from_queue L) i list_in
        = (L.take (start - i) ++ L.drop (end_ + 1 - i)).reverse ++ list_in := by
  induction L with
  | nil => intro i list_in; simp [make_list_from_queue, list_delete_range_loop]
  | cons x xs ih =>
    intro i list_in
    simp only [make_list_from_queue, list_delete_range_loop, ih]
    by_cases h1 : i < start
    · obtain ⟨k, hk⟩ : ∃ k, start - i = k + 1 := ⟨start - i - 1, by omega⟩
      obtain ⟨m, hm⟩ : ∃ m, end_ + 1 - i = m + 1 := ⟨end_ - i, by omega⟩
      have h2 : start - (i + 1) = k := by omega
      have h3 : end_ + 1 - (i + 1) = m := by omega
      simp [h1, hk, hm, h2, h3]
    · by_cases h4 : i > end_
      · have h5 : start - i = 0 := by omega
        have h6 : end_ + 1 - i = 0 := by omega
        have h7 : start - (i + 1) = 0 := by omega
        have h8 : end_ + 1 - (i + 1) = 0 := by omega
        simp [h4, h5, h6, h7, h8]
      · obtain ⟨m, hm⟩ : ∃ m, end_ + 1 - i = m + 1 := ⟨end_ - i, by omega⟩
        have h5 : start - i = 0 := by omega
        have h7 : start - (i + 1) = 0 := by omega
        have h8 : end_ + 1 - (i + 1) = m := by omega
        simp [h1, h4, h5, hm, h7, h8]

theorem merge_list_delete_range_make_list (L : List Term) (a b : Term) (start end_ : Nat)
    (ha : enif_get_uint a = some start) (hb : enif_get_uint b = some end_) :
    merge_list_delete_range (make_list_from_queue L) a b [] =
      if start ≥ L.length ∨ start ≥ end_ ∨ end_ ≥ L.length then Flow.on_error []
      else Flow.fallthrough
        (some (make_list_from_queue (L.take start ++ L.drop (end_ + 1)))) [] := by
  by_cases hc : start ≥ L.length ∨ start ≥ end_ ∨ end_ ≥ L.length
  · simp only [merge_list_delete_range, ha, hb, get_list_length_make_list, hc, if_true,
      on_error]
  · have hse : start ≤ end_ := by omega
    have hloop := list_delete_range_loop_make_list start end_ hse L 0 []
    simp only [Nat.sub_zero] at hloop
    simp only [merge_list_delete_range, ha, hb, get_list_length_make_list, hc, if_false,
      hloop, make_reverse_list_reverse]

/-- C11. On a baseline that decodes to the list `L`, the 3-argument ListDelete(start, end)
with `unsigned int` indices fails exactly when `start >= length(L)` or `start >= end` or
`end >= length(L)`; otherwise it succeeds with the encoding of `L` without the inclusive
index range `[start, end]`: the elements at indices below `start` followed by those at
indices above `end`, `length(L) - (end - start + 1)` elements. -/
theorem merge_list_delete_range_spec (rt : Runtime) (ind : Indeterminate)
    (ev value new_value : Bytes) (L : List Term) (start end_ : Nat)
    (hstart : start < 2 ^ 32) (hend : end_ < 2 ^ 32)
    (hdec : rt.enif_binary_to_term value
      = some (Term.tuple [Term.atom ATOM_MERGE_LIST_DELETE, Term.int start, Term.int end_]))
    (hev : rt.enif_binary_to_term ev = some (make_list_from_queue L)) :
    (start ≥ L.length ∨ start ≥ end_ ∨ end_ ≥ L.length →
      Merge rt ind (some ev) value new_value = Outcome.returned false [])
    ∧ (¬ (start ≥ L.length ∨ start ≥ end_ ∨ end_ ≥ L.length) → ∀ e,
        rt.enif_term_to_binary (make_list_from_queue (L.take start ++ L.drop (end_ + 1)))
          = some e →
        Merge rt ind (some ev) value new_value = Outcome.returned true e)
    ∧ (¬ (start ≥ L.length ∨ start ≥ end_ ∨ end_ ≥ L.length) →
        (L.take start ++ L.drop (end_ + 1)).length = L.length - (end_ - start + 1)) := by
  have ha := get_uint_natCast start hstart
  have hb := get_uint_natCast end_ hend
  have hm : Merge rt ind (some ev) value new_value
      = encode_result rt
          (if start ≥ L.length ∨ start ≥ end_ ∨ end_ ≥ L.length then Flow.on_error []
           else Flow.fallthrough
            (some (make_list_from_queue (L.take start ++ L.drop (end_ + 1)))) []) := by
    rw [merge_structured rt ind ev value new_value _ _ hdec hev, dispatch_list_delete_range,
      merge_list_delete_range_make_list L _ _ start end_ ha hb]
  refine ⟨?_, ?_, ?_⟩
  · intro hc
    rw [hm, if_pos hc]
    rfl
  · intro hc e henc
    rw [hm, if_neg hc]
    simp only [encode_result, henc]
  · intro hc
    simp only [List.length_append, List.length_take, List.length_drop]
    omega

/-- Witness of `merge_list_delete_range_spec`, the scenario of the specification: the
list `[1, 2, 3, 4, 5]` with ListDelete(1, 3) gives the list `[1, 5]`. -/
theorem merge_list_delete_range_spec_witness :
    1 < 2 ^ 32 ∧ 3 < 2 ^ 32
    ∧ etf.enif_binary_to_term
        [131, 104, 3, 119, 11, 108, 105, 115, 116, 95, 100, 101, 108, 101, 116, 101, 97, 1,
          97, 3]
        = some (Term.tuple [Term.atom ATOM_MERGE_LIST_DELETE, Term.int (1 : Nat),
            Term.int (3 : Nat)])
    ∧ etf.enif_binary_to_term [131, 107, 0, 5, 1, 2, 3, 4, 5]
        = some (make_list_from_queue
            [Term.int 1, Term.int 2, Term.int 3, Term.int 4, Term.int 5])
    ∧ ¬ (1 ≥ [Term.int 1, Term.int 2, Term.int 3, Term.int 4, Term.int 5].length ∨ 1 ≥ 3
          ∨ 3 ≥ [Term.int 1, Term.int 2, Term.int 3, Term.int 4, Term.int 5].length)
    ∧ etf.enif_term_to_binary (make_list_from_queue
          ([Term.int 1, Term.int 2, Term.int 3, Term.int 4, Term.int 5].take 1
            ++ [Term.int 1, Term.int 2, Term.int 3, Term.int 4, Term.int 5].drop (3 + 1)))
        = some [131, 107, 0, 2, 1, 5]
    ∧ Merge etf junk (some [131, 107, 0, 5, 1, 2, 3, 4, 5])
        [131, 104, 3, 119, 11, 108, 105, 115, 116, 95, 100, 101, 108, 101, 116, 101, 97, 1,
          97, 3] []
        = Outcome.returned true [131, 107, 0, 2, 1, 5] :=
  ⟨by decide, by decide, rfl, rfl, by decide, rfl,
   (merge_list_delete_range_spec etf junk [131, 107, 0, 5, 1, 2, 3, 4, 5]
      [131, 104, 3, 119, 11, 108, 105, 115, 116, 95, 100, 101, 108, 101, 116, 101, 97, 1,
        97, 3] []
      [Term.int 1, Term.int 2, Term.int 3, Term.int 4, Term.int 5] 1 3 (by decide)
      (by decide) rfl rfl).2.1 (by decide) [131, 107, 0, 2, 1, 5] rfl⟩

/-! ### ListInsert -/

theorem is_list_make_list (L : List Term) : enif_is_list (make_list_from_queue L) = true := by
  cases L <;> rfl

theorem list_insert_loop_passed (pos : Nat) (L : List Term) :
    ∀ (itail : Term) (i : Nat) (list_in : List Term), pos < i →
      list_insert_loop pos (make_list_from_queue L) itail i list_in
        = L.reverse ++ list_in := by
  induction L with
  | nil => intro itail i list_in _; simp [make_list_from_queue, list_insert_loop]
  | cons x xs ih =>
    intro itail i list_in hlt
    have h1 : pos ≠ i := by omega
    simp only [make_list_from_queue, list_insert_loop, h1, if_false]
    rw [ih itail (i + 1) _ (by omega)]
    simp

theorem list_insert_loop_make_list (pos : Nat) (itail : Term) (L : List Term) :
    ∀ (i : Nat) (list_in : List Term), i ≤ pos → pos - i < L.length →
      list_insert_loop pos (make_list_from_queue L) itail i list_in
        = (L.take (pos - i) ++ push_back_cells itail ++ L.drop (pos - i)).reverse
            ++ list_in := by
  induction L with
  | nil => intro i list_in _ hlt; simp at hlt
  | cons x xs ih =>
    intro i list_in hle hlt
    by_cases h1 : pos = i
    · subst h1
      simp only [make_list_from_queue, list_insert_loop, if_true]
      rw [list_insert_loop_passed pos xs _ (pos + 1) _ (by omega)]
      simp
    · obtain ⟨k, hk⟩ : ∃ k, pos - i = k + 1 := ⟨pos - i - 1, by omega⟩
      have h2 : pos - (i + 1) = k := by omega
      simp only [make_list_from_queue, list_insert_loop, h1, if_false]
      rw [ih (i + 1) _ (by omega) (by simp only [List.length_cons] at hlt; omega), h2, hk]
      simp

theorem merge_list_insert_make_list (L : List Term) (a b : Term) (pos : Nat)
    (ha : enif_get_uint a = some pos) (hb : enif_is_list b = true) :
    merge_list_insert (make_list_from_queue L) a b [] =
      if pos ≥ L.length then Flow.on_error []
      else Flow.fallthrough
        (some (make_list_from_queue (L.take pos ++ push_back_cells b ++ L.drop pos))) [] := by
  by_cases hc : pos ≥ L.length
  · simp only [merge_list_insert, ha, hb, get_list_length_make_list, hc, if_true, on_error,
      Bool.not_true, Bool.false_eq_true, if_false]
  · have hloop := list_insert_loop_make_list pos b L 0 [] (Nat.zero_le _) (by omega)
    simp only [Nat.sub_zero] at hloop
    simp only [merge_list_insert, ha, hb, get_list_length_make_list, hc, if_false, hloop,
      make_reverse_list_reverse, Bool.not_true, Bool.false_eq_true]

theorem merge_list_insert_not_list (t a b : Term) (hb : enif_is_list b = false) :
    merge_list_insert t a b [] = Flow.on_error [] := by
  cases ha : enif_get_uint a <;> simp [merge_list_insert, ha, hb, on_error]

/-- C13. On a baseline that decodes to the list `L`, ListInsert(pos, A) with `pos` an
`unsigned int` and `A` a list fails exactly when `pos >= length(L)` (so for every `pos`
when `L` is empty, and `A` cannot be put after the last element); otherwise it succeeds
with the encoding of the first `pos` elements of `L`, then the elements of `A` in their
order, then the remaining elements of `L`. With an `arg2` that is not a list the
operation fails, whatever the baseline and `arg1` are. -/
theorem merge_list_insert_spec (rt : Runtime) (ind : Indeterminate)
    (ev value new_value : Bytes) (L A : List Term) (pos : Nat) (hpos : pos < 2 ^ 32)
    (hdec : rt.enif_binary_to_term value
      = some (Term.tuple [Term.atom ATOM_MERGE_LIST_INSERT, Term.int pos,
          make_list_from_queue A]))
    (hev : rt.enif_binary_to_term ev = some (make_list_from_queue L)) :
    (L.length ≤ pos → Merge rt ind (some ev) value new_value = Outcome.returned false [])
    ∧ (pos < L.length → ∀ e,
        rt.enif_term_to_binary (make_list_from_queue (L.take pos ++ A ++ L.drop pos))
          = some e →
        Merge rt ind (some ev) value new_value = Outcome.returned true e)
    ∧ (L = [] → Merge rt ind (some ev) value new_value = Outcome.returned false [])
    ∧ (∀ (existing_value : Option Bytes) (value2 : Bytes) (arg1 arg2 : Term),
        rt.enif_binary_to_term value2
          = some (Term.tuple [Term.atom ATOM_MERGE_LIST_INSERT, arg1, arg2]) →
        enif_is_list arg2 = false →
        Merge rt ind existing_value value2 new_value = Outcome.returned false []) := by
  have hp := get_uint_natCast pos hpos
  have hm : Merge rt ind (some ev) value new_value
      = encode_result rt (if pos ≥ L.length then Flow.on_error []
          else Flow.fallthrough
            (some (make_list_from_queue (L.take pos ++ A ++ L.drop pos))) []) := by
    rw [merge_structured rt ind ev value new_value _ _ hdec hev, dispatch_list_insert,
      merge_list_insert_make_list L _ _ pos hp (is_list_make_list A),
      push_back_cells_make_list]
  have hfail : L.length ≤ pos →
      Merge rt ind (some ev) value new_value = Outcome.returned false [] := by
    intro hge
    rw [hm, if_pos hge]
    rfl
  refine ⟨hfail, ?_, ?_, ?_⟩
  · intro hlt e henc
    rw [hm, if_neg (by omega)]
    simp only [encode_result, henc]
  · intro hnil
    exact hfail (by simp [hnil])
  · intro existing_value value2 arg1 arg2 hdec2 hnl
    cases existing_value with
    | none =>
      rw [merge_absent rt ind value2 new_value _ hdec2, dispatch_list_insert,
        merge_list_insert_not_list _ _ _ hnl]
      rfl
    | some ev2 =>
      cases hev2 : rt.enif_binary_to_term ev2 with
      | some t =>
        rw [merge_structured rt ind ev2 value2 new_value _ t hdec2 hev2,
          dispatch_list_insert, merge_list_insert_not_list _ _ _ hnl]
        rfl
      | none =>
        simp [Merge, hdec2, string_clear, merge_tuple, enif_get_tuple, resolve_baseline,
          hev2, op_0, is_atom, ATOM_MERGE_BINARY_APPEND, ATOM_MERGE_BINARY_REPLACE,
          ATOM_MERGE_BINARY_INSERT, ATOM_MERGE_BINARY_ERASE, ATOM_MERGE_LIST_INSERT,
          on_error, encode_result]

/-- Witness of `merge_list_insert_spec`: the list `[1, 2, 3]` with ListInsert(1, [8, 9])
gives the list `[1, 8, 9, 2, 3]`. -/
theorem merge_list_insert_spec_witness :
    1 < 2 ^ 32
    ∧ etf.enif_binary_to_term
        [131, 104, 3, 119, 11, 108, 105, 115, 116, 95, 105, 110, 115, 101, 114, 116, 97, 1,
          107, 0, 2, 8, 9]
        = some (Term.tuple [Term.atom ATOM_MERGE_LIST_INSERT, Term.int (1 : Nat),
            make_list_from_queue [Term.int 8, Term.int 9]])
    ∧ etf.enif_binary_to_term [131, 107, 0, 3, 1, 2, 3]
        = some (make_list_from_queue [Term.int 1, Term.int 2, Term.int 3])
    ∧ 1 < [Term.int 1, Term.int 2, Term.int 3].length
    ∧ etf.enif_term_to_binary (make_list_from_queue
          ([Term.int 1, Term.int 2, Term.int 3].take 1 ++ [Term.int 8, Term.int 9]
            ++ [Term.int 1, Term.int 2, Term.int 3].drop 1))
        = some [131, 107, 0, 5, 1, 8, 9, 2, 3]
    ∧ Merge etf junk (some [131, 107, 0, 3, 1, 2, 3])
        [131, 104, 3, 119, 11, 108, 105, 115, 116, 95, 105, 110, 115, 101, 114, 116, 97, 1,
          107, 0, 2, 8, 9] []
        = Outcome.returned true [131, 107, 0, 5, 1, 8, 9, 2, 3] :=
  ⟨by decide, rfl, rfl, by decide, rfl,
   (merge_list_insert_spec etf junk [131, 107, 0, 3, 1, 2, 3]
      [131, 104, 3, 119, 11, 108, 105, 115, 116, 95, 105, 110, 115, 101, 114, 116, 97, 1,
        107, 0, 2, 8, 9] []
      [Term.int 1, Term.int 2, Term.int 3] [Term.int 8, Term.int 9] 1 (by decide) rfl
      rfl).2.1 (by decide) [131, 107, 0, 5, 1, 8, 9, 2, 3] rfl⟩

/-! ### ListAppend -/

theorem merge_list_append_make_list (ev : Bytes) (L : List Term) (a : Term)
    (ha : enif_is_list a = true) :
    merge_list_append (some ev) (make_list_from_queue L) a [] =
      Flow.fallthrough (some (make_list_from_queue (L ++ push_back_cells a))) [] := by
  simp [merge_list_append, is_list_make_list, push_back_cells_make_list, ha]

theorem merge_list_append_absent (t a : Term) (ha : enif_is_list a = true) :
    merge_list_append none t a [] =
      Flow.fallthrough (some (make_list_from_queue (push_back_cells a))) [] := by
  simp [merge_list_append, ha]

theorem merge_list_append_baseline_not_list (ev : Bytes) (t a : Term)
    (ht : enif_is_list t = false) :
    merge_list_append (some ev) t a [] = Flow.on_error [] := by
  simp [merge_list_append, ht, on_error]

theorem merge_list_append_arg_not_list (existing_value : Option Bytes) (t a : Term)
    (ha : enif_is_list a = false) :
    merge_list_append existing_value t a [] = Flow.on_error [] := by
  cases existing_value <;> cases ht : enif_is_list t <;>
    simp [merge_list_append, ha, ht, on_error]

/-- `Merge` of a ListAppend onto a baseline that decodes to a list. -/
theorem merge_list_append_onto_list (rt : Runtime) (ind : Indeterminate)
    (ev value new_value e : Bytes) (L A : List Term)
    (hdec : rt.enif_binary_to_term value
      = some (Term.tuple [Term.atom ATOM_MERGE_LIST_APPEND, make_list_from_queue A]))
    (hev : rt.enif_binary_to_term ev = some (make_list_from_queue L))
    (henc : rt.enif_term_to_binary (make_list_from_queue (L ++ A)) = some e) :
    Merge rt ind (some ev) value new_value = Outcome.returned true e := by
  rw [merge_structured rt ind ev value new_value _ _ hdec hev, dispatch_list_append,
    merge_list_append_make_list ev L _ (is_list_make_list A), push_back_cells_make_list]
  simp only [encode_result, henc]

/-- C14. ListAppend(A) with `A` a list: on a baseline that decodes to the list `L` the
output is the encoding of `L ++ A`, and with no baseline it is the encoding of `A`. The
operation fails when the baseline is present and decodes to a term that is not a list,
and it fails when `arg1` is not a list, whatever the baseline is. -/
theorem merge_list_append_spec (rt : Runtime) (ind : Indeterminate)
    (value new_value : Bytes) (A : List Term)
    (hdec : rt.enif_binary_to_term value
      = some (Term.tuple [Term.atom ATOM_MERGE_LIST_APPEND, make_list_from_queue A])) :
    (∀ ev L e, rt.enif_binary_to_term ev = some (make_list_from_queue L) →
      rt.enif_term_to_binary (make_list_from_queue (L ++ A)) = some e →
      Merge rt ind (some ev) value new_value = Outcome.returned true e)
    ∧ (∀ e, rt.enif_term_to_binary (make_list_from_queue A) = some e →
        Merge rt ind none value new_value = Outcome.returned true e)
    ∧ (∀ ev t, rt.enif_binary_to_term ev = some t → enif_is_list t = false →
        Merge rt ind (some ev) value new_value = Outcome.returned false [])
    ∧ (∀ (existing_value : Option Bytes) (value2 : Bytes) (arg1 : Term),
        rt.enif_binary_to_term value2
          = some (Term.tuple [Term.atom ATOM_MERGE_LIST_APPEND, arg1]) →
        enif_is_list arg1 = false →
        Merge rt ind existing_value value2 new_value = Outcome.returned false []) := by
  refine ⟨?_, ?_, ?_, ?_⟩
  · intro ev L e hev henc
    exact merge_list_append_onto_list rt ind ev value new_value e L A hdec hev henc
  · intro e henc
    rw [merge_absent rt ind value new_value _ hdec, dispatch_list_append,
      merge_list_append_absent _ _ (is_list_make_list A), push_back_cells_make_list]
    simp only [encode_result, henc]
  · intro ev t hev hnl
    rw [merge_structured rt ind ev value new_value _ t hdec hev, dispatch_list_append,
      merge_list_append_baseline_not_list ev t _ hnl]
    rfl
  · intro existing_value value2 arg1 hdec2 hnl
    cases existing_value with
    | none =>
      rw [merge_absent rt ind value2 new_value _ hdec2, dispatch_list_append,
        merge_list_append_arg_not_list _ _ _ hnl]
      rfl
    | some ev2 =>
      cases hev2 : rt.enif_binary_to_term ev2 with
      | some t =>
        rw [merge_structured rt ind ev2 value2 new_value _ t hdec2 hev2,
          dispatch_list_append, merge_list_append_arg_not_list _ _ _ hnl]
        rfl
      | none =>
        simp [Merge, hdec2, string_clear, merge_tuple, enif_get_tuple, resolve_baseline,
          hev2, op_0, is_atom, ATOM_MERGE_BINARY_APPEND, ATOM_MERGE_BINARY_REPLACE,
          ATOM_MERGE_BINARY_INSERT, ATOM_MERGE_BINARY_ERASE, ATOM_MERGE_LIST_APPEND,
          on_error, encode_result]

/-- Witness of `merge_list_append_spec`: ListAppend([4, 5]) on the list `[1, 2, 3]` gives
`[1, 2, 3, 4, 5]`, and with no baseline gives `[4, 5]`. -/
theorem merge_list_append_spec_witness :
    etf.enif_binary_to_term
        [131, 104, 2, 119, 11, 108, 105, 115, 116, 95, 97, 112, 112, 101, 110, 100, 107, 0, 2,
          4, 5]
        = some (Term.tuple [Term.atom ATOM_MERGE_LIST_APPEND,
            make_list_from_queue [Term.int 4, Term.int 5]])
    ∧ (etf.enif_binary_to_term [131, 107, 0, 3, 1, 2, 3]
          = some (make_list_from_queue [Term.int 1, Term.int 2, Term.int 3])
      ∧ etf.enif_term_to_binary (make_list_from_queue
            ([Term.int 1, Term.int 2, Term.int 3] ++ [Term.int 4, Term.int 5]))
          = some [131, 107, 0, 5, 1, 2, 3, 4, 5]
      ∧ Merge etf junk (some [131, 107, 0, 3, 1, 2, 3])
          [131, 104, 2, 119, 11, 108, 105, 115, 116, 95, 97, 112, 112, 101, 110, 100, 107, 0,
            2, 4, 5] []
          = Outcome.returned true [131, 107, 0, 5, 1, 2, 3, 4, 5])
    ∧ (etf.enif_term_to_binary (make_list_from_queue [Term.int 4, Term.int 5])
          = some [131, 107, 0, 2, 4, 5]
      ∧ Merge etf junk none
          [131, 104, 2, 119, 11, 108, 105, 115, 116, 95, 97, 112, 112, 101, 110, 100, 107, 0,
            2, 4, 5] []
          = Outcome.returned true [131, 107, 0, 2, 4, 5]) :=
  ⟨rfl,
   ⟨rfl, rfl,
    (merge_list_append_spec etf junk
      [131, 104, 2, 119, 11, 108, 105, 115, 116, 95, 97, 112, 112, 101, 110, 100, 107, 0, 2,
        4, 5] [] [Term.int 4, Term.int 5] rfl).1 [131, 107, 0, 3, 1, 2, 3]
      [Term.int 1, Term.int 2, Term.int 3] [131, 107, 0, 5, 1, 2, 3, 4, 5] rfl rfl⟩,
   ⟨rfl,
    (merge_list_append_spec etf junk
      [131, 104, 2, 119, 11, 108, 105, 115, 116, 95, 97, 112, 112, 101, 110, 100, 107, 0, 2,
        4, 5] [] [Term.int 4, Term.int 5] rfl).2.1 [131, 107, 0, 2, 4, 5] rfl⟩⟩

/-- C15. ListAppend is associative across successive merges, for a codec that round-trips
the lists involved: merging ListAppend(A) into `encode(L)` gives `encode(L ++ A)`, merging
ListAppend(B) into that result gives the same bytes as merging the single operation
ListAppend(A ++ B) into `encode(L)`. -/
theorem merge_list_append_assoc (rt : Runtime) (ind : Indeterminate)
    (valueA valueB valueAB new_value eL e1 e2 : Bytes) (L A B : List Term)
    (hdecA : rt.enif_binary_to_term valueA
      = some (Term.tuple [Term.atom ATOM_MERGE_LIST_APPEND, make_list_from_queue A]))
    (hdecB : rt.enif_binary_to_term valueB
      = some (Term.tuple [Term.atom ATOM_MERGE_LIST_APPEND, make_list_from_queue B]))
    (hdecAB : rt.enif_binary_to_term valueAB
      = some (Term.tuple [Term.atom ATOM_MERGE_LIST_APPEND, make_list_from_queue (A ++ B)]))
    (_hencL : rt.enif_term_to_binary (make_list_from_queue L) = some eL)
    (hdecL : rt.enif_binary_to_term eL = some (make_list_from_queue L))
    (henc1 : rt.enif_term_to_binary (make_list_from_queue (L ++ A)) = some e1)
    (hdec1 : rt.enif_binary_to_term e1 = some (make_list_from_queue (L ++ A)))
    (henc2 : rt.enif_term_to_binary (make_list_from_queue (L ++ A ++ B)) = some e2) :
    Merge rt ind (some eL) valueA new_value = Outcome.returned true e1
    ∧ Merge rt ind (some e1) valueB new_value = Outcome.returned true e2
    ∧ Merge rt ind (some eL) valueAB new_value = Outcome.returned true e2 := by
  refine ⟨?_, ?_, ?_⟩
  · exact merge_list_append_onto_list rt ind eL valueA new_value e1 L A hdecA hdecL henc1
  · exact merge_list_append_onto_list rt ind e1 valueB new_value e2 (L ++ A) B hdecB hdec1
      henc2
  · exact merge_list_append_onto_list rt ind eL valueAB new_value e2 L (A ++ B) hdecAB hdecL
      (by rw [← List.append_assoc]; exact henc2)

/-- Witness of `merge_list_append_assoc`: `L = [1, 2, 3]`, `A = [4, 5]`, `B = [6]` on the
external term format. -/
theorem merge_list_append_assoc_witness :
    Merge etf junk (some [131, 107, 0, 3, 1, 2, 3])
        [131, 104, 2, 119, 11, 108, 105, 115, 116, 95, 97, 112, 112, 101, 110, 100, 107, 0, 2,
          4, 5] []
        = Outcome.returned true [131, 107, 0, 5, 1, 2, 3, 4, 5]
    ∧ Merge etf junk (some [131, 107, 0, 5, 1, 2, 3, 4, 5])
        [131, 104, 2, 119, 11, 108, 105, 115, 116, 95, 97, 112, 112, 101, 110, 100, 107, 0, 1,
          6] []
        = Outcome.returned true [131, 107, 0, 6, 1, 2, 3, 4, 5, 6]
    ∧ Merge etf junk (some [131, 107, 0, 3, 1, 2, 3])
        [131, 104, 2, 119, 11, 108, 105, 115, 116, 95, 97, 112, 112, 101, 110, 100, 107, 0, 3,
          4, 5, 6] []
        = Outcome.returned true [131, 107, 0, 6, 1, 2, 3, 4, 5, 6] :=
  merge_list_append_assoc etf junk
    [131, 104, 2, 119, 11, 108, 105, 115, 116, 95, 97, 112, 112, 101, 110, 100, 107, 0, 2, 4,
      5]
    [131, 104, 2, 119, 11, 108, 105, 115, 116, 95, 97, 112, 112, 101, 110, 100, 107, 0, 1, 6]
    [131, 104, 2, 119, 11, 108, 105, 115, 116, 95, 97, 112, 112, 101, 110, 100, 107, 0, 3, 4,
      5, 6]
    [] [131, 107, 0, 3, 1, 2, 3] [131, 107, 0, 5, 1, 2, 3, 4, 5]
    [131, 107, 0, 6, 1, 2, 3, 4, 5, 6]
    [Term.int 1, Term.int 2, Term.int 3] [Term.int 4, Term.int 5] [Term.int 6]
    rfl rfl rfl rfl rfl rfl rfl rfl

/-! ### ListSubtract -/

theorem erase_equal_eq_filter (rt : Runtime) (head : Term) (q : List Term) :
    erase_equal rt head q = q.filter (fun it => decide (rt.enif_compare it head ≠ 0)) := by
  induction q with
  | nil => rfl
  | cons it rest ih =>
    by_cases h : rt.enif_compare it head = 0
    · simp [erase_equal, h, ih]
    · simp [erase_equal, h, ih]

theorem subtract_cells_make_list (rt : Runtime) (S : List Term) :
    ∀ q : List Term,
      subtract_cells rt (make_list_from_queue S) q
        = q.filter (fun x => S.all (fun s => decide (rt.enif_compare x s ≠ 0))) := by
  induction S with
  | nil => intro q; simp [make_list_from_queue, subtract_cells]
  | cons s S ih =>
    intro q
    simp only [make_list_from_queue, subtract_cells, ih, erase_equal_eq_filter,
      List.filter_filter, List.all_cons]
    congr 1
    funext x
    exact Bool.and_comm _ _

theorem merge_list_substract_make_list (rt : Runtime) (ev : Bytes) (L S : List Term)
    (hS : S ≠ []) :
    merge_list_substract rt (some ev) (make_list_from_queue L) (make_list_from_queue S) [] =
      Flow.fallthrough (some (make_list_from_queue
        (L.filter (fun x => S.all (fun s => decide (rt.enif_compare x s ≠ 0)))))) [] := by
  have hlen : S.length ≠ 0 := by
    intro h
    exact hS (List.length_eq_zero.mp h)
  simp only [merge_list_substract, is_list_make_list, get_list_length_make_list, hlen,
    push_back_cells_make_list, subtract_cells_make_list, Bool.not_true, Bool.false_eq_true,
    if_false]

/-- C16 (as stated) fails: the baseline is the list `[1]`, the update is
`{list_substract, [1.0]}`. The integer `1` is equal to no element of the subtrahend as a
term (the subtrahend holds only the float `1.0`), so the claim gives the list `[1]`; the
code tests `enif_compare(*it, head) == 0`, for which `1` and `1.0` are equal, and `Merge`
returns the encoding of the empty list. -/
theorem merge_list_subtract_compares_by_value :
    etf.enif_binary_to_term [131, 107, 0, 1, 1] = some (make_list_from_queue [Term.int 1])
    ∧ etf.enif_binary_to_term
        [131, 104, 2, 119, 14, 108, 105, 115, 116, 95, 115, 117, 98, 115, 116, 114, 97, 99,
          116, 108, 0, 0, 0, 1, 70, 63, 240, 0, 0, 0, 0, 0, 0, 106]
        = some (Term.tuple [Term.atom ATOM_MERGE_LIST_SUBSTRACT,
            make_list_from_queue [Term.other 4607182418800017408]])
    ∧ Term.int 1 ∉ [Term.other 4607182418800017408]
    ∧ term_eq (Term.int 1) (Term.other 4607182418800017408) = false
    ∧ etf.enif_compare (Term.int 1) (Term.other 4607182418800017408) = 0
    ∧ etf.enif_term_to_binary (make_list_from_queue
          ([Term.int 1].filter (fun x => [Term.other 4607182418800017408].all
            (fun s => !term_eq x s))))
        = some [131, 107, 0, 1, 1]
    ∧ Merge etf junk (some [131, 107, 0, 1, 1])
        [131, 104, 2, 119, 14, 108, 105, 115, 116, 95, 115, 117, 98, 115, 116, 114, 97, 99,
          116, 108, 0, 0, 0, 1, 70, 63, 240, 0, 0, 0, 0, 0, 0, 106] []
        = Outcome.returned true [131, 106]
    ∧ ([131, 106] : Bytes) ≠ [131, 107, 0, 1, 1] :=
  ⟨rfl, rfl, by simp, rfl, rfl, rfl, rfl, by decide⟩

/-- C16 (as amended). On a baseline that decodes to the list `L`, ListSubtract(S) with `S`
a non-empty list succeeds with the encoding of the elements of `L` that compare equal to
no element of `S`, where two terms compare equal when `enif_compare` gives 0 (the Erlang
`==`, for which an integer and a float of the same value are equal), in their order in
`L`: every copy of a matched element is removed and every unmatched element is kept. The
result depends only on which elements occur in `S`, so repeating an element inside `S`
changes nothing; and as a term compares equal to itself, no element of `S` is left in
the result. -/
theorem merge_list_subtract_spec (rt : Runtime) (ind : Indeterminate)
    (ev value new_value : Bytes) (L S : List Term) (hS : S ≠ [])
    (hdec : rt.enif_binary_to_term value
      = some (Term.tuple [Term.atom ATOM_MERGE_LIST_SUBSTRACT, make_list_from_queue S]))
    (hev : rt.enif_binary_to_term ev = some (make_list_from_queue L)) :
    (∀ e, rt.enif_term_to_binary (make_list_from_queue
          (L.filter (fun x => S.all (fun s => decide (rt.enif_compare x s ≠ 0))))) = some e →
      Merge rt ind (some ev) value new_value = Outcome.returned true e)
    ∧ (∀ x, x ∈ L.filter (fun x => S.all (fun s => decide (rt.enif_compare x s ≠ 0)))
        ↔ x ∈ L ∧ ∀ s ∈ S, rt.enif_compare x s ≠ 0)
    ∧ (L.filter (fun x => S.all (fun s => decide (rt.enif_compare x s ≠ 0)))).Sublist L
    ∧ (∀ (value2 : Bytes) (S2 : List Term), (∀ s, s ∈ S2 ↔ s ∈ S) →
        rt.enif_binary_to_term value2
          = some (Term.tuple [Term.atom ATOM_MERGE_LIST_SUBSTRACT, make_list_from_queue S2]) →
        Merge rt ind (some ev) value2 new_value = Merge rt ind (some ev) value new_value)
    ∧ ((∀ x, rt.enif_compare x x = 0) →
        ∀ x ∈ L.filter (fun x => S.all (fun s => decide (rt.enif_compare x s ≠ 0))),
          x ∉ S) := by
  have hm : ∀ (v : Bytes) (S1 : List Term), S1 ≠ [] →
      rt.enif_binary_to_term v
        = some (Term.tuple [Term.atom ATOM_MERGE_LIST_SUBSTRACT, make_list_from_queue S1]) →
      Merge rt ind (some ev) v new_value
        = encode_result rt (Flow.fallthrough (some (make_list_from_queue
            (L.filter (fun x => S1.all (fun s => decide (rt.enif_compare x s ≠ 0)))))) []) := by
    intro v S1 hS1 hv
    rw [merge_structured rt ind ev v new_value _ _ hv hev, dispatch_list_substract,
      merge_list_substract_make_list rt ev L S1 hS1]
  refine ⟨?_, ?_, ?_, ?_, ?_⟩
  · intro e henc
    rw [hm value S hS hdec]
    simp only [encode_result, henc]
  · intro x
    simp [List.mem_filter]
  · exact List.filter_sublist L
  · intro value2 S2 hsame hdec2
    have hS2 : S2 ≠ [] := by
      intro h
      obtain ⟨s, rest, hs⟩ := List.exists_cons_of_ne_nil hS
      have : s ∈ S2 := (hsame s).mpr (by simp [hs])
      simp [h] at this
    rw [hm value2 S2 hS2 hdec2, hm value S hS hdec]
    have hfilter : (fun x => S2.all (fun s => decide (rt.enif_compare x s ≠ 0)))
        = (fun x => S.all (fun s => decide (rt.enif_compare x s ≠ 0))) := by
      funext x
      rw [Bool.eq_iff_iff]
      simp only [List.all_eq_true, decide_eq_true_eq]
      constructor
      · intro h s hs
        exact h s ((hsame s).mpr hs)
      · intro h s hs
        exact h s ((hsame s).mp hs)
    rw [hfilter]
  · intro hrefl x hx hxS
    have hall := (List.mem_filter.mp hx).2
    simp only [List.all_eq_true, decide_eq_true_eq] at hall
    exact hall x hxS (hrefl x)

/-- Witness of `merge_list_subtract_spec`: the list `[1, 2, 1, 3]` with
ListSubtract([1, 1]) gives the list `[2, 3]`. -/
theorem merge_list_subtract_spec_witness :
    [Term.int 1, Term.int 1] ≠ []
    ∧ etf.enif_binary_to_term
        [131, 104, 2, 119, 14, 108, 105, 115, 116, 95, 115, 117, 98, 115, 116, 114, 97, 99,
          116, 107, 0, 2, 1, 1]
        = some (Term.tuple [Term.atom ATOM_MERGE_LIST_SUBSTRACT,
            make_list_from_queue [Term.int 1, Term.int 1]])
    ∧ etf.enif_binary_to_term [131, 107, 0, 4, 1, 2, 1, 3]
        = some (make_list_from_queue [Term.int 1, Term.int 2, Term.int 1, Term.int 3])
    ∧ etf.enif_term_to_binary (make_list_from_queue
          ([Term.int 1, Term.int 2, Term.int 1, Term.int 3].filter
            (fun x => [Term.int 1, Term.int 1].all
              (fun s => decide (etf.enif_compare x s ≠ 0)))))
        = some [131, 107, 0, 2, 2, 3]
    ∧ Merge etf junk (some [131, 107, 0, 4, 1, 2, 1, 3])
        [131, 104, 2, 119, 14, 108, 105, 115, 116, 95, 115, 117, 98, 115, 116, 114, 97, 99,
          116, 107, 0, 2, 1, 1] []
        = Outcome.returned true [131, 107, 0, 2, 2, 3] :=
  ⟨List.cons_ne_nil _ _, rfl, rfl, rfl,
   (merge_list_subtract_spec etf junk [131, 107, 0, 4, 1, 2, 1, 3]
      [131, 104, 2, 119, 14, 108, 105, 115, 116, 95, 115, 117, 98, 115, 116, 114, 97, 99,
        116, 107, 0, 2, 1, 1] []
      [Term.int 1, Term.int 2, Term.int 1, Term.int 3] [Term.int 1, Term.int 1]
      (List.cons_ne_nil _ _) rfl rfl).1 [131, 107, 0, 2, 2, 3] rfl⟩

/-- C17 (as stated) fails: the baseline is the list `[1, 2, 3]` written as LIST_EXT, the
update is `{list_substract, []}`; `Merge` returns true and the output is the same list
written as STRING_EXT, the form the encoder gives to a list of bytes: the baseline is
decoded and encoded again, and the bytes differ. -/
theorem merge_list_subtract_empty_reencodes :
    etf.enif_binary_to_term [131, 108, 0, 0, 0, 3, 97, 1, 97, 2, 97, 3, 106]
      = some (make_list_from_queue [Term.int 1, Term.int 2, Term.int 3])
    ∧ etf.enif_binary_to_term
        [131, 104, 2, 119, 14, 108, 105, 115, 116, 95, 115, 117, 98, 115, 116, 114, 97, 99,
          116, 106]
        = some (Term.tuple [Term.atom ATOM_MERGE_LIST_SUBSTRACT, make_list_from_queue []])
    ∧ Merge etf junk (some [131, 108, 0, 0, 0, 3, 97, 1, 97, 2, 97, 3, 106])
        [131, 104, 2, 119, 14, 108, 105, 115, 116, 95, 115, 117, 98, 115, 116, 114, 97, 99,
          116, 106] []
        = Outcome.returned true [131, 107, 0, 3, 1, 2, 3]
    ∧ ([131, 107, 0, 3, 1, 2, 3] : Bytes) ≠ [131, 108, 0, 0, 0, 3, 97, 1, 97, 2, 97, 3, 106] :=
  ⟨rfl, rfl, rfl, by decide⟩

/-- C17 (as amended). On a present baseline whose bytes `b` decode to a list, ListSubtract
with an empty subtrahend list hands the decoded baseline to the encoder: the call
succeeds with `encode(decode(b))`, and the output is byte-identical to `b` whenever `b` is
what the encoder gives for that list. -/
theorem merge_list_subtract_empty (rt : Runtime) (ind : Indeterminate)
    (ev value new_value : Bytes) (L : List Term)
    (hdec : rt.enif_binary_to_term value
      = some (Term.tuple [Term.atom ATOM_MERGE_LIST_SUBSTRACT, make_list_from_queue []]))
    (hev : rt.enif_binary_to_term ev = some (make_list_from_queue L)) :
    (∀ e, rt.enif_term_to_binary (make_list_from_queue L) = some e →
      Merge rt ind (some ev) value new_value = Outcome.returned true e)
    ∧ (rt.enif_term_to_binary (make_list_from_queue L) = some ev →
        Merge rt ind (some ev) value new_value = Outcome.returned true ev) := by
  have hm : Merge rt ind (some ev) value new_value
      = encode_result rt (Flow.fallthrough (some (make_list_from_queue L)) []) := by
    rw [merge_structured rt ind ev value new_value _ _ hdec hev, dispatch_list_substract]
    simp only [merge_list_substract, is_list_make_list, get_list_length_make_list,
      List.length_nil, Bool.not_true, Bool.false_eq_true, if_false, if_true]
  have h1 : ∀ e, rt.enif_term_to_binary (make_list_from_queue L) = some e →
      Merge rt ind (some ev) value new_value = Outcome.returned true e := by
    intro e henc
    rw [hm]
    simp only [encode_result, henc]
  exact ⟨h1, h1 ev⟩

/-- Witness of `merge_list_subtract_empty`: the baseline is the encoder's own output for
`[1, 2, 3]` and comes back byte for byte. -/
theorem merge_list_subtract_empty_witness :
    etf.enif_binary_to_term
        [131, 104, 2, 119, 14, 108, 105, 115, 116, 95, 115, 117, 98, 115, 116, 114, 97, 99,
          116, 106]
        = some (Term.tuple [Term.atom ATOM_MERGE_LIST_SUBSTRACT, make_list_from_queue []])
    ∧ etf.enif_binary_to_term [131, 107, 0, 3, 1, 2, 3]
        = some (make_list_from_queue [Term.int 1, Term.int 2, Term.int 3])
    ∧ etf.enif_term_to_binary (make_list_from_queue [Term.int 1, Term.int 2, Term.int 3])
        = some [131, 107, 0, 3, 1, 2, 3]
    ∧ Merge etf junk (some [131, 107, 0, 3, 1, 2, 3])
        [131, 104, 2, 119, 14, 108, 105, 115, 116, 95, 115, 117, 98, 115, 116, 114, 97, 99,
          116, 106] []
        = Outcome.returned true [131, 107, 0, 3, 1, 2, 3] :=
  ⟨rfl, rfl, rfl,
   (merge_list_subtract_empty etf junk [131, 107, 0, 3, 1, 2, 3]
      [131, 104, 2, 119, 14, 108, 105, 115, 116, 95, 115, 117, 98, 115, 116, 114, 97, 99,
        116, 106] [] [Term.int 1, Term.int 2, Term.int 3] rfl rfl).2 rfl⟩

/-- C20. With no baseline, ListSubtract succeeds with the encoding of the empty list for
every `arg1`, a list or not: `arg1` is not looked at on this path. -/
theorem merge_list_subtract_without_baseline (rt : Runtime) (ind : Indeterminate)
    (value new_value e : Bytes) (arg1 : Term)
    (hdec : rt.enif_binary_to_term value
      = some (Term.tuple [Term.atom ATOM_MERGE_LIST_SUBSTRACT, arg1]))
    (henc : rt.enif_term_to_binary Term.nil = some e) :
    Merge rt ind none value new_value = Outcome.returned true e := by
  rw [merge_absent rt ind value new_value _ hdec, dispatch_list_substract]
  simp only [merge_list_substract, encode_result, henc]

/-- Witness of `merge_list_subtract_without_baseline`: `{list_substract, 5}`, whose
argument is not a list, with no baseline gives the encoding of `[]`. -/
theorem merge_list_subtract_without_baseline_witness :
    etf.enif_binary_to_term
        [131, 104, 2, 119, 14, 108, 105, 115, 116, 95, 115, 117, 98, 115, 116, 114, 97, 99,
          116, 97, 5]
        = some (Term.tuple [Term.atom ATOM_MERGE_LIST_SUBSTRACT, Term.int 5])
    ∧ etf.enif_term_to_binary Term.nil = some [131, 106]
    ∧ enif_is_list (Term.int 5) = false
    ∧ Merge etf junk none
        [131, 104, 2, 119, 14, 108, 105, 115, 116, 95, 115, 117, 98, 115, 116, 114, 97, 99,
          116, 97, 5] []
        = Outcome.returned true [131, 106] :=
  ⟨rfl, rfl, rfl,
   merge_list_subtract_without_baseline etf junk
     [131, 104, 2, 119, 14, 108, 105, 115, 116, 95, 115, 117, 98, 115, 116, 114, 97, 99,
       116, 97, 5] [] [131, 106] (Term.int 5) rfl rfl⟩

/-! ## IntAdd -/

/-- C18 (the code at a failing input). The baseline is the encoding of
`9223372036854775807`, the largest `ErlNifSInt64`, and the update is `{int_add, 1}`: both
are signed 64-bit integers, their exact sum is `9223372036854775808`, yet `old_val + val`
is computed in `ErlNifSInt64` and `Merge` returns true with the encoding of
`-9223372036854775808`. -/
theorem merge_int_add_overflow :
    etf.enif_binary_to_term [131, 110, 8, 0, 255, 255, 255, 255, 255, 255, 255, 127]
      = some (Term.int 9223372036854775807)
    ∧ etf.enif_binary_to_term
        [131, 104, 2, 119, 7, 105, 110, 116, 95, 97, 100, 100, 97, 1]
        = some (Term.tuple [Term.atom ATOM_MERGE_INT_ADD, Term.int 1])
    ∧ etf.enif_term_to_binary (Term.int (9223372036854775807 + 1))
        = some [131, 110, 8, 0, 0, 0, 0, 0, 0, 0, 0, 128]
    ∧ etf.enif_term_to_binary (Term.int (-9223372036854775808))
        = some [131, 110, 8, 1, 0, 0, 0, 0, 0, 0, 0, 128]
    ∧ Merge etf junk (some [131, 110, 8, 0, 255, 255, 255, 255, 255, 255, 255, 127])
        [131, 104, 2, 119, 7, 105, 110, 116, 95, 97, 100, 100, 97, 1] []
        = Outcome.returned true [131, 110, 8, 1, 0, 0, 0, 0, 0, 0, 0, 128] :=
  ⟨rfl, rfl, rfl, rfl, rfl⟩

theorem get_int64_int (v : Int) (h1 : -(2 : Int) ^ 63 ≤ v) (h2 : v < (2 : Int) ^ 63) :
    enif_get_int64 (Term.int v) = some v := by
  simp only [enif_get_int64, h1, h2, and_self, if_true]

theorem wrap_int64_in_range (x : Int) (h1 : -(2 : Int) ^ 63 ≤ x) (h2 : x < (2 : Int) ^ 63) :
    wrap_int64 x = x := by
  unfold wrap_int64
  rw [Int.emod_eq_of_lt (by omega) (by omega)]
  omega

theorem merge_int_add_present (ev : Bytes) (t a : Term) (v d : Int)
    (ht : enif_get_int64 t = some v) (ha : enif_get_int64 a = some d) :
    merge_int_add (some ev) t a []
      = Flow.fallthrough (some (Term.int (wrap_int64 (v + d)))) [] := by
  simp [merge_int_add, ht, ha, enif_make_int64]

theorem merge_int_add_absent (t a : Term) (d : Int) (ha : enif_get_int64 a = some d) :
    merge_int_add none t a [] = Flow.fallthrough (some (Term.int (wrap_int64 (0 + d)))) [] := by
  simp [merge_int_add, ha, enif_make_int64]

theorem merge_int_add_arg_not_integer (existing_value : Option Bytes) (t a : Term)
    (ha : enif_get_int64 a = none) :
    merge_int_add existing_value t a [] = Flow.on_error [] := by
  cases existing_value <;> cases ht : enif_get_int64 t <;>
    simp [merge_int_add, ha, ht, on_error]

/-- IntAdd where the sum fits `ErlNifSInt64`: for signed 64-bit `v` and `d` whose sum is
a signed 64-bit integer, IntAdd(d) on a baseline that decodes to `Integer(v)` gives the
encoding of `v + d`, and on an absent baseline the encoding of `Integer(d)`. The operation
fails when `arg1` is not a signed 64-bit integer, whatever the baseline is. -/
theorem merge_int_add_in_range (rt : Runtime) (ind : Indeterminate)
    (value new_value : Bytes) (d : Int)
    (hd1 : -(2 : Int) ^ 63 ≤ d) (hd2 : d < (2 : Int) ^ 63)
    (hdec : rt.enif_binary_to_term value
      = some (Term.tuple [Term.atom ATOM_MERGE_INT_ADD, Term.int d])) :
    (∀ (ev e : Bytes) (v : Int), -(2 : Int) ^ 63 ≤ v → v < (2 : Int) ^ 63 →
      -(2 : Int) ^ 63 ≤ v + d → v + d < (2 : Int) ^ 63 →
      rt.enif_binary_to_term ev = some (Term.int v) →
      rt.enif_term_to_binary (Term.int (v + d)) = some e →
      Merge rt ind (some ev) value new_value = Outcome.returned true e)
    ∧ (∀ e, rt.enif_term_to_binary (Term.int d) = some e →
        Merge rt ind none value new_value = Outcome.returned true e)
    ∧ (∀ (existing_value : Option Bytes) (value2 : Bytes) (arg1 : Term),
        rt.enif_binary_to_term value2
          = some (Term.tuple [Term.atom ATOM_MERGE_INT_ADD, arg1]) →
        enif_get_int64 arg1 = none →
        Merge rt ind existing_value value2 new_value = Outcome.returned false []) := by
  have hd := get_int64_int d hd1 hd2
  refine ⟨?_, ?_, ?_⟩
  · intro ev e v hv1 hv2 hs1 hs2 hev henc
    rw [merge_structured rt ind ev value new_value _ _ hdec hev, dispatch_int_add,
      merge_int_add_present ev _ _ v d (get_int64_int v hv1 hv2) hd,
      wrap_int64_in_range (v + d) hs1 hs2]
    simp only [encode_result, henc]
  · intro e henc
    rw [merge_absent rt ind value new_value _ hdec, dispatch_int_add,
      merge_int_add_absent _ _ d hd, Int.zero_add, wrap_int64_in_range d hd1 hd2]
    simp only [encode_result, henc]
  · intro existing_value value2 arg1 hdec2 hna
    cases existing_value with
    | none =>
      rw [merge_absent rt ind value2 new_value _ hdec2, dispatch_int_add,
        merge_int_add_arg_not_integer _ _ _ hna]
      rfl
    | some ev2 =>
      cases hev2 : rt.enif_binary_to_term ev2 with
      | some t =>
        rw [merge_structured rt ind ev2 value2 new_value _ t hdec2 hev2, dispatch_int_add,
          merge_int_add_arg_not_integer _ _ _ hna]
        rfl
      | none =>
        simp [Merge, hdec2, string_clear, merge_tuple, enif_get_tuple, resolve_baseline,
          hev2, op_0, is_atom, ATOM_MERGE_BINARY_APPEND, ATOM_MERGE_BINARY_REPLACE,
          ATOM_MERGE_BINARY_INSERT, ATOM_MERGE_BINARY_ERASE, ATOM_MERGE_INT_ADD,
          on_error, encode_result]

/-- The scenario of the specification: with no baseline, IntAdd(7) gives bytes that
decode to `Integer(7)`. -/
theorem merge_int_add_seven :
    Merge etf junk none [131, 104, 2, 119, 7, 105, 110, 116, 95, 97, 100, 100, 97, 7] []
      = Outcome.returned true [131, 97, 7]
    ∧ etf.enif_binary_to_term [131, 97, 7] = some (Term.int 7) :=
  ⟨rfl, rfl⟩

/-! ## Reads of the undecoded baseline term -/

/-- C19 (the code at a failing input). With no baseline, `{list_set, 0, 9}`,
`{list_delete, 0}`, `{list_delete, 0, 1}` and `{list_insert, 0, [8, 9]}` reach
`enif_get_list_length(env, existing_term, &len)` with `existing_term` never assigned. The
outcome follows the value found there: with a non-list in that storage `Merge` returns
false, with the list `[1, 2, 3]` in it `Merge` returns true and writes a value made from
that list. -/
theorem merge_reads_unassigned_existing_term :
    (Merge etf { existing_term := Term.other 0, op0 := Term.other 0 } none
        [131, 104, 3, 119, 8, 108, 105, 115, 116, 95, 115, 101, 116, 97, 0, 97, 9] []
        = Outcome.returned false []
      ∧ Merge etf
          { existing_term := make_list_from_queue [Term.int 1, Term.int 2, Term.int 3],
            op0 := Term.other 0 } none
          [131, 104, 3, 119, 8, 108, 105, 115, 116, 95, 115, 101, 116, 97, 0, 97, 9] []
          = Outcome.returned true [131, 107, 0, 3, 9, 2, 3])
    ∧ (Merge etf { existing_term := Term.other 0, op0 := Term.other 0 } none
        [131, 104, 2, 119, 11, 108, 105, 115, 116, 95, 100, 101, 108, 101, 116, 101, 97, 0] []
        = Outcome.returned false []
      ∧ Merge etf
          { existing_term := make_list_from_queue [Term.int 1, Term.int 2, Term.int 3],
            op0 := Term.other 0 } none
          [131, 104, 2, 119, 11, 108, 105, 115, 116, 95, 100, 101, 108, 101, 116, 101, 97, 0] []
          = Outcome.returned true [131, 107, 0, 2, 2, 3])
    ∧ (Merge etf { existing_term := Term.other 0, op0 := Term.other 0 } none
        [131, 104, 3, 119, 11, 108, 105, 115, 116, 95, 100, 101, 108, 101, 116, 101, 97, 0,
          97, 1] []
        = Outcome.returned false []
      ∧ Merge etf
          { existing_term := make_list_from_queue [Term.int 1, Term.int 2, Term.int 3],
            op0 := Term.other 0 } none
          [131, 104, 3, 119, 11, 108, 105, 115, 116, 95, 100, 101, 108, 101, 116, 101, 97, 0,
            97, 1] []
          = Outcome.returned true [131, 107, 0, 1, 3])
    ∧ (Merge etf { existing_term := Term.other 0, op0 := Term.other 0 } none
        [131, 104, 3, 119, 11, 108, 105, 115, 116, 95, 105, 110, 115, 101, 114, 116, 97, 0,
          107, 0, 2, 8, 9] []
        = Outcome.returned false []
      ∧ Merge etf
          { existing_term := make_list_from_queue [Term.int 1, Term.int 2, Term.int 3],
            op0 := Term.other 0 } none
          [131, 104, 3, 119, 11, 108, 105, 115, 116, 95, 105, 110, 115, 101, 114, 116, 97, 0,
            107, 0, 2, 8, 9] []
          = Outcome.returned true [131, 107, 0, 5, 8, 9, 1, 2, 3]) :=
  ⟨⟨rfl, rfl⟩, ⟨rfl, rfl⟩, ⟨rfl, rfl⟩, ⟨rfl, rfl⟩⟩

/-- `Merge` on a tuple whose tag is an atom other than the four binary tags, with a
baseline that does not decode: the baseline gate returns false. -/
theorem merge_fails_raw (rt : Runtime) (ind : Indeterminate) (ev value new_value : Bytes)
    (tag : String) (args : List Term) (htag : is_raw_path_tag (Term.atom tag) = false)
    (hdec : rt.enif_binary_to_term value = some (Term.tuple (Term.atom tag :: args)))
    (hev : rt.enif_binary_to_term ev = none) :
    Merge rt ind (some ev) value new_value = Outcome.returned false [] := by
  simp only [is_raw_path_tag, Bool.or_eq_false_iff] at htag
  obtain ⟨⟨⟨h1, h2⟩, h3⟩, h4⟩ := htag
  simp [Merge, hdec, string_clear, merge_tuple, enif_get_tuple, resolve_baseline, hev,
    op_0, h1, h2, h3, h4, on_error, encode_result]

/-- The other handlers do not read the unassigned storage: for an IntAdd, ListAppend,
ListSubtract or binary operation tuple the outcome of `Merge` is the same for all
indeterminate values, whatever the baseline is. -/
theorem merge_ignores_unassigned_existing_term (rt : Runtime) (ind ind2 : Indeterminate)
    (existing_value : Option Bytes) (value new_value : Bytes) (k : Kind) (op : List Term)
    (hk : k ≠ Kind.ListSet ∧ k ≠ Kind.ListInsert ∧ k ≠ Kind.ListDelete
      ∧ k ≠ Kind.ListDeleteRange)
    (hdec : rt.enif_binary_to_term value = some (Term.tuple op))
    (hop : is_operation k op = true) :
    Merge rt ind existing_value value new_value
      = Merge rt ind2 existing_value value new_value := by
  obtain ⟨args, rfl, hlen⟩ := is_operation_shape hop
  obtain ⟨hk1, hk2, hk3, hk4⟩ := hk
  cases existing_value with
  | some ev =>
    cases hev : rt.enif_binary_to_term ev with
    | some t =>
      rw [merge_structured rt ind ev value new_value _ t hdec hev,
        merge_structured rt ind2 ev value new_value _ t hdec hev]
    | none =>
      cases k
      case ListSet => exact absurd rfl hk1
      case ListInsert => exact absurd rfl hk2
      case ListDelete => exact absurd rfl hk3
      case ListDeleteRange => exact absurd rfl hk4
      case BinaryAppend =>
        obtain ⟨a, rfl⟩ := List.length_eq_one.mp (by simpa [Kind.arity] using hlen)
        rw [merge_raw_path rt ind ev value new_value _ _ (by rfl) hdec hev,
          merge_raw_path rt ind2 ev value new_value _ _ (by rfl) hdec hev]
        simp only [Kind.tag, dispatch_binary_append, merge_binary_append]
        rfl
      case BinaryErase =>
        obtain ⟨a, b, rfl⟩ := List.length_eq_two.mp (by simpa [Kind.arity] using hlen)
        rw [merge_raw_path rt ind ev value new_value _ _ (by rfl) hdec hev,
          merge_raw_path rt ind2 ev value new_value _ _ (by rfl) hdec hev]
        simp only [Kind.tag, dispatch_binary_erase, merge_binary_erase]
        rfl
      case BinaryInsert =>
        obtain ⟨a, b, rfl⟩ := List.length_eq_two.mp (by simpa [Kind.arity] using hlen)
        rw [merge_raw_path rt ind ev value new_value _ _ (by rfl) hdec hev,
          merge_raw_path rt ind2 ev value new_value _ _ (by rfl) hdec hev]
        simp only [Kind.tag, dispatch_binary_insert, merge_binary_insert]
        rfl
      case BinaryReplace =>
        obtain ⟨a, b, c, rfl⟩ := List.length_eq_three.mp (by simpa [Kind.arity] using hlen)
        rw [merge_raw_path rt ind ev value new_value _ _ (by rfl) hdec hev,
          merge_raw_path rt ind2 ev value new_value _ _ (by rfl) hdec hev]
        simp only [Kind.tag, dispatch_binary_replace, merge_binary_replace]
        rfl
      all_goals
        rw [merge_fails_raw rt ind ev value new_value _ _ (by rfl) hdec hev,
          merge_fails_raw rt ind2 ev value new_value _ _ (by rfl) hdec hev]
  | none =>
    rw [merge_absent rt ind value new_value _ hdec, merge_absent rt ind2 value new_value _ hdec]
    cases k
    case ListSet => exact absurd rfl hk1
    case ListInsert => exact absurd rfl hk2
    case ListDelete => exact absurd rfl hk3
    case ListDeleteRange => exact absurd rfl hk4
    case IntAdd =>
      obtain ⟨a, rfl⟩ := List.length_eq_one.mp (by simpa [Kind.arity] using hlen)
      simp only [Kind.tag, dispatch_int_add, merge_int_add]
    case ListAppend =>
      obtain ⟨a, rfl⟩ := List.length_eq_one.mp (by simpa [Kind.arity] using hlen)
      simp only [Kind.tag, dispatch_list_append, merge_list_append]
    case ListSubtract =>
      obtain ⟨a, rfl⟩ := List.length_eq_one.mp (by simpa [Kind.arity] using hlen)
      simp only [Kind.tag, dispatch_list_substract, merge_list_substract]
    case BinaryAppend =>
      obtain ⟨a, rfl⟩ := List.length_eq_one.mp (by simpa [Kind.arity] using hlen)
      simp only [Kind.tag, dispatch_binary_append, merge_binary_append]
    case BinaryErase =>
      obtain ⟨a, b, rfl⟩ := List.length_eq_two.mp (by simpa [Kind.arity] using hlen)
      simp only [Kind.tag, dispatch_binary_erase, merge_binary_erase]
    case BinaryInsert =>
      obtain ⟨a, b, rfl⟩ := List.length_eq_two.mp (by simpa [Kind.arity] using hlen)
      simp only [Kind.tag, dispatch_binary_insert, merge_binary_insert]
    case BinaryReplace =>
      obtain ⟨a, b, c, rfl⟩ := List.length_eq_three.mp (by simpa [Kind.arity] using hlen)
      simp only [Kind.tag, dispatch_binary_replace, merge_binary_replace]

end erocksdb
